import Mathlib

/-!
Verification of the sphinxnotes-any core: object/schema value model
(`objects.py`), built-in indexers (`indexers.py`) and the object domain
registry (`domain.py`), as a shallow embedding in Lean 4.

Python strings are modelled as `List Char` (named `Str`), Python dicts as
association lists with unique keys (insertion order preserved, as in CPython),
and Python sets as duplicate-free lists built with membership-tested insertion.
Raised exceptions are modelled with `Except`.
-/

namespace AnyE

/-- Python `str`, modelled as a list of characters. -/
abbrev Str := List Char

-- ======================================================================
-- Python string primitives used by the sources
-- ======================================================================

/-- Split at the first occurrence of `c`: `s.split(c, maxsplit=1)` when `c`
occurs in `s` (`none` models `c not in s`, Python's membership test). -/
def splitFirst (c : Char) : Str → Option (Str × Str)
  | [] => none
  | x :: xs =>
    if x = c then some ([], xs)
    else (splitFirst c xs).map (fun p => (x :: p.1, p.2))

/-- Python `s.split(sep)` for a one-character separator: split on every
occurrence; the empty string yields `[""]`.  The result is never empty. -/
def pySplitAll (sep : Char) : Str → List Str
  | [] => [[]]
  | x :: xs =>
    let r := pySplitAll sep xs
    if x = sep then [] :: r
    else
      match r with
      | h :: t => (x :: h) :: t
      | [] => [[x]]

/-- Python `s.strip()`: drop leading and trailing whitespace. -/
def pyStrip (s : Str) : Str :=
  ((s.dropWhile Char.isWhitespace).reverse.dropWhile Char.isWhitespace).reverse

/-- Python truthiness of an optional string: `None` and `""` are falsy. -/
def pyTruthy (o : Option Str) : Bool :=
  match o with
  | none => false
  | some s => s ≠ []

-- ======================================================================
-- objects.py / obj.py: RefType
-- ======================================================================

/-- `RefType` (objects.py:518-571, identically obj.py:41-87): a reference
type `<objtype>[.<field>[+by-<indexer>]]`. -/
structure RefType where
  objtype : Str
  field : Option Str := none
  indexer : Option Str := none
deriving DecidableEq, Repr

/-- `RefType.parse` (objects.py:540-561): split off a `+action` suffix at the
first `+` (Python `reftype.split('+', 1)`); the action must start with `by-`,
the rest names the indexer; then split `objtype.field` at the first `.`.
An unknown action raises `ValueError`, modelled as `Except.error`. -/
def RefType.parse (reftype : Str) : Except Str RefType :=
  match splitFirst '+' reftype with
  | some (rt, action) =>
    if action.take 3 = "by-".data then
      let index := action.drop 3
      match splitFirst '.' rt with
      | some (objtype, field) => .ok ⟨objtype, some field, some index⟩
      | none => .ok ⟨rt, none, some index⟩
    else .error ("unknown action".data)
  | none =>
    match splitFirst '.' reftype with
    | some (objtype, field) => .ok ⟨objtype, some field, none⟩
    | none => .ok ⟨reftype, none, none⟩

/-- `RefType.__str__` (objects.py:563-570): `objtype`, then `.field` when the
field is truthy, then `+by-indexer` when the indexer is truthy. -/
def RefType.toStr (rt : RefType) : Str :=
  rt.objtype
    ++ (match rt.field with
        | some f => if f = [] then [] else '.' :: f
        | none => [])
    ++ (match rt.indexer with
        | some i => if i = [] then [] else '+' :: ("by-".data ++ i)
        | none => [])

-- Lemmas about splitFirst -------------------------------------------------

theorem splitFirst_eq_none_of_not_mem {c : Char} {s : Str} (h : c ∉ s) :
    splitFirst c s = none := by
  induction s with
  | nil => rfl
  | cons x xs ih =>
    simp only [List.mem_cons, not_or] at h
    simp [splitFirst, Ne.symm h.1, ih h.2]

theorem splitFirst_append {c : Char} {a b : Str} (h : c ∉ a) :
    splitFirst c (a ++ c :: b) = some (a, b) := by
  induction a with
  | nil => simp [splitFirst]
  | cons x xs ih =>
    simp only [List.mem_cons, not_or] at h
    simp [splitFirst, Ne.symm h.1, ih h.2]

/-- C10: round-trip of reference-type notation.  For every `RefType` whose
objtype contains neither `.` nor `+`, whose optional field is non-empty and
contains no `+`, and whose optional indexer is non-empty,
`RefType.parse (str rt)` succeeds and returns the same objtype, field and
indexer. -/
theorem any_C10 (t : Str) (f i : Option Str)
    (_ht : t ≠ []) (htd : '.' ∉ t) (htp : '+' ∉ t)
    (hf : ∀ x, f = some x → x ≠ [] ∧ '+' ∉ x)
    (hi : ∀ x, i = some x → x ≠ []) :
    RefType.parse (RefType.toStr ⟨t, f, i⟩) = .ok ⟨t, f, i⟩ := by
  cases f with
  | none =>
    cases i with
    | none =>
      simp [RefType.toStr, RefType.parse,
        splitFirst_eq_none_of_not_mem htp, splitFirst_eq_none_of_not_mem htd]
    | some iv =>
      have hiv : iv ≠ [] := (hi iv rfl)
      have : RefType.toStr ⟨t, none, some iv⟩ = t ++ '+' :: ("by-".data ++ iv) := by
        simp [RefType.toStr, hiv]
      rw [this, RefType.parse, splitFirst_append htp]
      simp [List.take_append_of_le_length, List.drop_append_of_le_length,
        splitFirst_eq_none_of_not_mem htd]
  | some fv =>
    have hfv : fv ≠ [] := (hf fv rfl).1
    have hfp : '+' ∉ fv := (hf fv rfl).2
    cases i with
    | none =>
      have : RefType.toStr ⟨t, some fv, none⟩ = t ++ '.' :: fv := by
        simp [RefType.toStr, hfv]
      rw [this, RefType.parse]
      have hnp : '+' ∉ t ++ '.' :: fv := by
        intro hmem
        rcases List.mem_append.mp hmem with h | h
        · exact htp h
        · rcases List.mem_cons.mp h with h | h
          · exact absurd h.symm (by decide)
          · exact hfp h
      rw [splitFirst_eq_none_of_not_mem hnp, splitFirst_append htd]
    | some iv =>
      have hiv : iv ≠ [] := (hi iv rfl)
      have : RefType.toStr ⟨t, some fv, some iv⟩
          = (t ++ '.' :: fv) ++ '+' :: ("by-".data ++ iv) := by
        simp [RefType.toStr, hfv, hiv]
      rw [this, RefType.parse]
      have hnp : '+' ∉ t ++ '.' :: fv := by
        intro hmem
        rcases List.mem_append.mp hmem with h | h
        · exact htp h
        · rcases List.mem_cons.mp h with h | h
          · exact absurd h.symm (by decide)
          · exact hfp h
      rw [splitFirst_append hnp]
      simp [List.take_append_of_le_length, List.drop_append_of_le_length,
        splitFirst_append htd]

/-- C10 witness: the round-trip theorem applied at the concrete reference
type `cat.color+by-year`. -/
theorem any_C10_witness :
    RefType.parse (RefType.toStr ⟨"cat".data, some "color".data, some "year".data⟩)
      = .ok ⟨"cat".data, some "color".data, some "year".data⟩ :=
  any_C10 "cat".data (some "color".data) (some "year".data)
    (by decide) (by decide) (by decide)
    (fun x hx => by cases hx; exact ⟨by decide, by decide⟩)
    (fun x hx => by cases hx; decide)

-- ======================================================================
-- Python dict primitive (association list with unique keys)
-- ======================================================================

/-- Python `d.get(k)` / `d[k]` lookup on a dict modelled as an association
list. -/
def dlookup {κ ν : Type} [DecidableEq κ] : List (κ × ν) → κ → Option ν
  | [], _ => none
  | (k', v) :: rest, k => if k = k' then some v else dlookup rest k

-- ======================================================================
-- objects.py: exceptions, Value, Form, Field
-- ======================================================================

/-- Exceptions raised by the embedded code: a failed `assert`
(`AssertionError`), `ObjectError` (objects.py:26), `SchemaError`
(objects.py:30) and a dict `KeyError`. -/
inductive PyErr where
  | assertionError : PyErr
  | objectError (msg : Str) : PyErr
  | schemaError (msg : Str) : PyErr
  | keyError : PyErr
deriving DecidableEq, Repr

deriving instance DecidableEq for Except

/-- `Value` (objects.py:34-57): an immutable optional field value,
`None | str | list[str]`. -/
inductive Value where
  | none : Value
  | str (s : Str) : Value
  | list (l : List Str) : Value
deriving DecidableEq, Repr

/-- `Value.as_list` (objects.py:48-54): a string becomes a singleton list, a
list stays itself, `None` becomes the empty list. -/
def Value.as_list : Value → List Str
  | Value.none => []
  | Value.str s => [s]
  | Value.list l => l

/-- `Form` (objects.py:60-85): `Single(strip)` keeps the raw string
(optionally stripped); `List(sep, strip)` splits on the separator and
optionally strips every part.  All forms declared in the source
(`PLAIN/STRIPPED/WORDS/LINES/STRIPPED_LINES`, objects.py:209-214) use a
one-character separator and the default `max=-1` (no split limit), which is
what is modelled here. -/
inductive Form where
  | single (strip : Bool) : Form
  | list (sep : Char) (strip : Bool) : Form
deriving DecidableEq, Repr

/-- `Form.extract` (objects.py:71-72 and 81-85). -/
def Form.extract : Form → Str → Value
  | .single strip, raw => Value.str (if strip then pyStrip raw else raw)
  | .list sep strip, raw =>
    let strv := pySplitAll sep raw
    Value.list (if strip then strv.map pyStrip else strv)

/-- `Field` (objects.py:181-226): value constraints of one object field.
The `indexers` list (objects.py:220), used only when directives and indices
are generated, plays no role in the verified operations and is omitted. -/
structure Field where
  uniq : Bool := false
  ref : Bool := false
  required : Bool := false
  form : Form := .single false
deriving DecidableEq, Repr

/-- `Field.value_of` (objects.py:222-226): on a missing raw value the source
runs `assert not self.required` — a required field with no raw value raises
`AssertionError`; otherwise the form extracts the value. -/
def Field.value_of (f : Field) (rawval : Option Str) : Except PyErr Value :=
  match rawval with
  | Option.none => if f.required then .error .assertionError else .ok Value.none
  | some raw => .ok (f.form.extract raw)

-- ======================================================================
-- objects.py: Object and Schema
-- ======================================================================

/-- `Object` (objects.py:170-178): one immutable instance of a schema. -/
structure Object where
  objtype : Str
  name : Option Str
  attrs : List (Str × Str)
  content : Option Str
deriving DecidableEq, Repr

/-- Template variable name `name` (objects.py:239). -/
def NAME_KEY : Str := "name".data
/-- Template variable name `content` (objects.py:241). -/
def CONTENT_KEY : Str := "content".data
/-- Template variable name `type` (objects.py:237). -/
def TYPE_KEY : Str := "type".data
/-- Template variable name `title` (objects.py:243). -/
def TITLE_KEY : Str := "title".data

/-- `Schema` (objects.py:229-290): an optional name field, attribute fields
in declaration order, an optional content field, and the four templates.
Field defaults mirror `Schema.__init__`'s keyword defaults. -/
structure Schema where
  objtype : Str
  name : Option Field := some { uniq := true, ref := true }
  attrs : List (Str × Field) := []
  content : Option Field := some {}
  description_template : Str := "\x7b\x7b content \x7d\x7d".data
  reference_template : Str := "\x7b\x7b title \x7d\x7d".data
  missing_reference_template : Str := "\x7b\x7b title \x7d\x7d (missing reference)".data
  ambiguous_reference_template : Str := "\x7b\x7b title \x7d\x7d (disambiguation)".data
deriving DecidableEq, Repr

/-- The unique-field scan of `Schema.__init__` (objects.py:292-301): walk
`[name, content] + attrs`, skip absent fields, raise `SchemaError` when
`has_unique and field.uniq`, otherwise assign `has_unique = field.uniq`
(exactly as written in the source: the flag is overwritten, not
accumulated). -/
def uniqCheck : Bool → List (Option Field) → Except PyErr Unit
  | _, [] => .ok ()
  | has_unique, Option.none :: rest => uniqCheck has_unique rest
  | has_unique, some field :: rest =>
    if has_unique && field.uniq then
      .error (.schemaError "only one unique field is allowed in schema".data)
    else uniqCheck field.uniq rest

/-- `Schema.__init__`'s constraint check (objects.py:292-301) as a function
of the assembled schema. -/
def Schema.init (s : Schema) : Except PyErr Schema := do
  uniqCheck false ([s.name, s.content] ++ s.attrs.map (fun p => some p.2))
  pure s

/-- `Schema.fields_of` (objects.py:331-356): yield `(field_name, field,
raw_value)` for the name field, each attribute, then the content field.  The
generator is consumed sequentially; the first failing `value_of` assertion
aborts it, which the `Except` sequencing reproduces. -/
def Schema.fields_of (s : Schema) (obj : Object) :
    Except PyErr (List (Str × Field × Value)) := do
  let nameItems ← match s.name with
    | some nf => do
      let v ← nf.value_of obj.name
      pure [(NAME_KEY, nf, v)]
    | Option.none => pure ([] : List (Str × Field × Value))
  let attrItems ← s.attrs.mapM (fun p => do
    let v ← p.2.value_of (dlookup obj.attrs p.1)
    pure (p.1, p.2, v))
  let contentItems ← match s.content with
    | some cf => do
      let v ← cf.value_of obj.content
      pure [(CONTENT_KEY, cf, v)]
    | Option.none => pure ([] : List (Str × Field × Value))
  pure (nameItems ++ attrItems ++ contentItems)

/-- The required-field loop of `Schema.object` (objects.py:326-328): raise
`ObjectError('field {name} is required')` for the first required field whose
value is `None`. -/
def checkRequired : List (Str × Field × Value) → Except PyErr Unit
  | [] => .ok ()
  | (n, f, v) :: rest =>
    if f.required ∧ v = Value.none then
      .error (.objectError ("field ".data ++ n ++ " is required".data))
    else checkRequired rest

/-- `Schema.object` (objects.py:321-329): build the object, then scan
`fields_of` raising `ObjectError` for a required field with value `None`.
Computing each yielded value runs `Field.value_of` (and hence its assert)
before the loop body sees the item. -/
def Schema.object (s : Schema) (name : Option Str) (attrs : List (Str × Str))
    (content : Option Str) : Except PyErr Object := do
  let obj : Object := ⟨s.objtype, name, attrs, content⟩
  let items ← s.fields_of obj
  checkRequired items
  pure obj

/-- The reference-collecting loop body of `Schema.references_of`
(objects.py:411-419): skip non-referenceable fields and `None` values,
append `(name, val)` for a string value as-is, and for a list value append
`(name, x.strip())` for every element whose stripped form is non-empty. -/
def refStep (acc : List (Str × Str)) (item : Str × Field × Value) :
    List (Str × Str) :=
  let (n, f, v) := item
  if !f.ref then acc
  else match v with
    | Value.none => acc
    | Value.str val => acc ++ [(n, val)]
    | Value.list l =>
      acc ++ l.filterMap (fun x => if pyStrip x = [] then none else some (n, pyStrip x))

/-- `Schema.references_of` (objects.py:407-420): collect the reference pairs
of all fields and return them as a set (`set(refs)`, modelled by
`List.toFinset`). -/
def Schema.references_of (s : Schema) (obj : Object) :
    Except PyErr (Finset (Str × Str)) := do
  let items ← s.fields_of obj
  pure ((items.foldl refStep []).toFinset)

-- ======================================================================
-- C2: more than one unique field
-- ======================================================================

/-- A schema whose two unique fields (name and the attribute `a`) are
separated by the non-unique content field. -/
def c2schema : Schema :=
  { objtype := "cat".data, name := some { uniq := true },
    content := some {}, attrs := [("a".data, { uniq := true })] }

/-- A schema whose two unique fields are adjacent in the scan order. -/
def c2adjacent : Schema :=
  { objtype := "cat".data, name := some { uniq := true },
    content := some { uniq := true }, attrs := [] }

/-- C2: the claim says constructing a schema with more than one unique field
raises `SchemaError` regardless of the positions of the unique fields.  The
code resets its `has_unique` flag at every non-unique field, so a schema
whose two unique fields are separated by a non-unique one is accepted
(`Schema.init c2schema` succeeds) even though it has two unique fields,
while the adjacent arrangement is correctly rejected. -/
theorem any_C2 :
    Schema.init c2schema = .ok c2schema ∧
    (([c2schema.name, c2schema.content] ++ c2schema.attrs.map (fun p => some p.2)).countP
        (fun f => (f.map Field.uniq).getD false) = 2) ∧
    Schema.init c2adjacent
      = .error (.schemaError "only one unique field is allowed in schema".data) := by
  decide

-- ======================================================================
-- C3: missing required field
-- ======================================================================

/-- A schema whose name field is required (and unique/referenceable, as in
the source's default name field). -/
def c3schema : Schema :=
  { objtype := "cat".data, name := some { uniq := true, ref := true, required := true } }

/-- C3: the claim says `Schema.object` fails with the `ObjectError`
`'field name is required'` when a required field has no value.  In the code,
`Field.value_of` runs `assert not self.required` while `fields_of` computes
the yielded value, so the call fails with `AssertionError` before the
`ObjectError` branch (objects.py:327-328) can run; with the value present
the construction succeeds and returns the immutable object. -/
theorem any_C3 :
    Schema.object c3schema Option.none [] Option.none = .error PyErr.assertionError ∧
    Schema.object c3schema (some "mimi".data) [] Option.none
      = .ok ⟨"cat".data, some "mimi".data, [], Option.none⟩ := by
  decide

-- ======================================================================
-- C5: references_of
-- ======================================================================

theorem mem_foldl_refStep (items : List (Str × Field × Value))
    (acc : List (Str × Str)) (n : Str) (w : Str) :
    (n, w) ∈ items.foldl refStep acc ↔
      (n, w) ∈ acc ∨ ∃ f v, (n, f, v) ∈ items ∧ f.ref = true ∧
        (v = Value.str w ∨
          ∃ l x, v = Value.list l ∧ x ∈ l ∧ pyStrip x = w ∧ w ≠ []) := by
  induction items generalizing acc with
  | nil => simp
  | cons item rest ih =>
    obtain ⟨n', f', v'⟩ := item
    rw [List.foldl_cons, ih]
    constructor
    · rintro (hacc | hrest)
      · unfold refStep at hacc
        by_cases hr : f'.ref
        · simp only [hr, Bool.not_true, Bool.false_eq_true, if_false] at hacc
          cases v' with
          | none =>
            exact Or.inl hacc
          | str sval =>
            rcases List.mem_append.mp hacc with h | h
            · exact Or.inl h
            · rw [List.mem_singleton, Prod.mk.injEq] at h
              obtain ⟨h1, h2⟩ := h
              exact Or.inr ⟨f', Value.str sval, by simp [h1], hr, Or.inl (by rw [h2])⟩
          | list l =>
            rcases List.mem_append.mp hacc with h | h
            · exact Or.inl h
            · rcases List.mem_filterMap.mp h with ⟨x, hx, hfx⟩
              by_cases hs : pyStrip x = []
              · simp [hs] at hfx
              · rw [if_neg hs, Option.some.injEq, Prod.mk.injEq] at hfx
                obtain ⟨h1, h2⟩ := hfx
                exact Or.inr ⟨f', Value.list l, by simp [h1], hr,
                  Or.inr ⟨l, x, rfl, hx, h2, h2 ▸ hs⟩⟩
        · simp only [Bool.not_eq_true] at hr
          simp only [refStep, hr] at hacc
          exact Or.inl hacc
      · obtain ⟨f, v, hmem, hr, hv⟩ := hrest
        exact Or.inr ⟨f, v, List.mem_cons_of_mem _ hmem, hr, hv⟩
    · rintro (hacc | ⟨f, v, hmem, hr, hv⟩)
      · left
        unfold refStep
        by_cases hrf : f'.ref
        · simp only [hrf, Bool.not_true, Bool.false_eq_true, if_false]
          cases v' with
          | none => exact hacc
          | str sval => exact List.mem_append.mpr (Or.inl hacc)
          | list l => exact List.mem_append.mpr (Or.inl hacc)
        · simp only [Bool.not_eq_true] at hrf
          simp only [hrf]
          exact hacc
      · rcases List.mem_cons.mp hmem with heq | hmem'
        · rw [Prod.mk.injEq, Prod.mk.injEq] at heq
          obtain ⟨h1, h2, h3⟩ := heq
          left
          subst h1
          subst h2
          subst h3
          unfold refStep
          simp only [hr, Bool.not_true, Bool.false_eq_true, if_false]
          rcases hv with hstr | ⟨l, x, hvl, hxl, hxs, hw⟩
          · subst hstr
            exact List.mem_append.mpr (Or.inr (List.mem_singleton.mpr rfl))
          · subst hvl
            refine List.mem_append.mpr (Or.inr (List.mem_filterMap.mpr ⟨x, hxl, ?_⟩))
            subst hxs
            simp [hw]
        · right
          exact ⟨f, v, hmem', hr, hv⟩

/-- A schema with one referenceable word-list attribute `color`. -/
def c5word : Schema :=
  { objtype := "cat".data, name := Option.none, content := Option.none,
    attrs := [("color".data, { ref := true, form := Form.list ' ' true })] }

/-- An object of `c5word` with raw color value `"red blue blue"`. -/
def c5wordObj : Object :=
  ⟨"cat".data, Option.none, [("color".data, "red blue blue".data)], Option.none⟩

/-- A schema with one referenceable plain (scalar) attribute `color`. -/
def c5plain : Schema :=
  { objtype := "cat".data, name := Option.none, content := Option.none,
    attrs := [("color".data, { ref := true })] }

/-- An object of `c5plain` whose color raw value is the empty string. -/
def c5plainObj : Object :=
  ⟨"cat".data, Option.none, [("color".data, [])], Option.none⟩

/-- C5 (amended): a pair `(n, w)` is returned by `references_of` exactly
when some referenceable field `n` carries it — a scalar (string) value is
paired as-is (with no empty-string filtering), and each element of a list
value is stripped and kept only when non-empty after stripping; duplicates
collapse via the set.  The word-list example from the claim holds:
raw `"red blue blue"` yields exactly the red and blue pairs. -/
theorem any_C5 :
    (∀ (s : Schema) (obj : Object) (items : List (Str × Field × Value))
        (refs : Finset (Str × Str)),
        s.fields_of obj = .ok items → s.references_of obj = .ok refs →
        ∀ n w, (n, w) ∈ refs ↔ ∃ f v, (n, f, v) ∈ items ∧ f.ref = true ∧
          (v = Value.str w ∨
            ∃ l x, v = Value.list l ∧ x ∈ l ∧ pyStrip x = w ∧ w ≠ [])) ∧
    Schema.references_of c5word c5wordObj
      = .ok {("color".data, "red".data), ("color".data, "blue".data)} := by
  constructor
  · intro s obj items refs hitems hrefs n w
    unfold Schema.references_of at hrefs
    rw [hitems] at hrefs
    replace hrefs : Except.ok ((items.foldl refStep []).toFinset) = Except.ok refs := hrefs
    cases Except.ok.inj hrefs
    rw [List.mem_toFinset, mem_foldl_refStep]
    simp
  · decide

/-- C5 counterexample: for a referenceable plain field whose raw value is
the empty string, `references_of` returns the pair `("color", "")` — an
empty-string value — contradicting the claim that no returned pair has an
empty-string value (scalar values are not filtered, only list elements
are). -/
theorem any_C5_counterexample :
    Schema.references_of c5plain c5plainObj = .ok {("color".data, ([] : Str))} ∧
    ("color".data, ([] : Str)) ∈ ({("color".data, ([] : Str))} : Finset (Str × Str)) := by
  decide

/-- C5 witness: the characterization applied to the concrete word-list
object shows the red pair is returned. -/
theorem any_C5_witness :
    ("color".data, "red".data) ∈
      ({("color".data, "red".data), ("color".data, "blue".data)} : Finset (Str × Str)) := by
  have h := (any_C5.1 c5word c5wordObj
      [("color".data, { ref := true, form := Form.list ' ' true },
        Value.list ["red".data, "blue".data, "blue".data])]
      {("color".data, "red".data), ("color".data, "blue".data)}
      (by decide) (by decide) "color".data "red".data)
  exact h.mpr ⟨{ ref := true, form := Form.list ' ' true },
    Value.list ["red".data, "blue".data, "blue".data], by decide, rfl,
    Or.inr ⟨["red".data, "blue".data, "blue".data], "red".data, rfl, by decide, by decide, by decide⟩⟩

-- ======================================================================
-- objects.py: Category and Indexer
-- ======================================================================

/-- `Category` (objects.py:88-150): classification of an object for index
generation: a main category, an optional sub category and an optional extra
component. -/
structure Category where
  main : Str
  sub : Option Str := none
  extra : Option Str := none
deriving DecidableEq, Repr

/-- `Category.index_entry_subtype` (objects.py:132-135). -/
def Category.index_entry_subtype (c : Category) : Nat :=
  if c.sub ≠ Option.none then (if c.extra ≠ Option.none then 2 else 1) else 0

/-- `Category.as_main` (objects.py:137-138). -/
def Category.as_main (c : Category) : Category := ⟨c.main, Option.none, Option.none⟩

/-- `Category.as_sub` (objects.py:140-143). -/
def Category.as_sub (c : Category) : Option Category :=
  match c.sub with
  | Option.none => Option.none
  | some s => some ⟨c.main, some s, Option.none⟩

-- ======================================================================
-- indexers.py: LiteralIndexer and PathIndexer
-- ======================================================================

/-- `LiteralIndexer.classify` (indexers.py:20-24): one main-only category per
element of the value's list form. -/
def literal_classify (objref : Value) : List Category :=
  objref.as_list.map (fun v => Category.mk v Option.none Option.none)

/-- `LiteralIndexer.anchor` (indexers.py:26-28): a fixed `cap-` prefix plus
the reference value. -/
def literal_anchor (refval : Str) : Str := "cap-".data ++ refval

/-- Python `s.split(sep, maxsplit)` for a one-character separator: at most
`maxsplit` splits, the remainder stays joined.  Splitting fully and
re-joining the tail with the separator reconstructs the unsplit remainder
exactly, because a full split is lossless. -/
def pySplitMax (sep : Char) (max : Nat) (s : Str) : List Str :=
  let ps := pySplitAll sep s
  if ps.length ≤ max + 1 then ps
  else ps.take max ++ [List.intercalate [sep] (ps.drop max)]

/-- `PathIndexer` (indexers.py:34-52) configuration: the separator and the
maximum split count (1 or 2; the registry entry `slash` uses `('/', 2)`). -/
structure PathIndexer where
  sep : Char
  maxsplit : Nat
deriving DecidableEq, Repr

/-- `PathIndexer.classify` (indexers.py:41-49): for every list element,
split into components; `main` is the first component, `extra` the full
value, and — when `maxsplit == 2` — `sub` is the second component if
present, else `None`. -/
def path_classify (p : PathIndexer) (objref : Value) : List Category :=
  objref.as_list.map (fun v =>
    let comps := pySplitMax p.sep p.maxsplit v
    let category : Category := ⟨comps.headD [], Option.none, some v⟩
    if p.maxsplit = 2 then
      { category with sub := if 1 < comps.length then some (comps.getD 1 []) else Option.none }
    else category)

-- ======================================================================
-- indexers.py: calendar date model
-- ======================================================================

/-!
The calendar indexers parse values with `time.strptime` over the input
formats `['%Y-%m-%d', '%Y-%m', '%Y']` (indexers.py:58).  CPython's
`_strptime` compiles `%Y` to the regex `\d\d\d\d`, `%m` to
`(1[0-2]|0[1-9]|[1-9])` and `%d` to `(3[01]|[12]\d|0[1-9]|[1-9])`, requires
the whole string to be consumed, and finally computes the weekday through
`datetime.date(year, month, day)`, which raises `ValueError` for year `0`
or a day beyond the month's length.  Because the month/day alternations
match only digit strings, a format with `k` dashes matches exactly the
strings whose full dash-split has `k+1` parts, each part being a valid
token; that equivalent form is modelled here, restricted to the three
formats the source declares.
-/

/-- Numeric value of a digit string. -/
def digitsToNat (s : Str) : Nat :=
  s.foldl (fun a c => a * 10 + (c.toNat - '0'.toNat)) 0

/-- A 1-or-2-digit token with value in `[lo, hi]` — the `%m`/`%d` regex
alternations of CPython's `_strptime`. -/
def numTok (lo hi : Nat) (s : Str) : Bool :=
  (s.length == 1 || s.length == 2) && s.all Char.isDigit
    && decide (lo ≤ digitsToNat s) && decide (digitsToNat s ≤ hi)

/-- The `%Y` regex: exactly four digits. -/
def yearTok (s : Str) : Bool := s.length == 4 && s.all Char.isDigit

/-- Proleptic Gregorian leap year, as `datetime.date` uses. -/
def isLeap (y : Nat) : Bool := y % 4 == 0 && (y % 100 != 0 || y % 400 == 0)

/-- Length of month `m` of year `y`. -/
def daysInMonth (y m : Nat) : Nat :=
  match m with
  | 1 => 31
  | 2 => if isLeap y then 29 else 28
  | 3 => 31
  | 4 => 30
  | 5 => 31
  | 6 => 30
  | 7 => 31
  | 8 => 31
  | 9 => 30
  | 10 => 31
  | 11 => 30
  | 12 => 31
  | _ => 0

/-- A parsed `struct_time` restricted to the fields the indexers use; absent
month/day default to 1 as in `_strptime`. -/
structure Tm where
  year : Nat
  month : Nat := 1
  day : Nat := 1
deriving DecidableEq, Repr

/-- The three input formats of `INPUTFMTS` (indexers.py:58):
`'%Y-%m-%d'`, `'%Y-%m'` and `'%Y'`. -/
inductive DateFmt where
  | ymd : DateFmt
  | ym : DateFmt
  | y : DateFmt
deriving DecidableEq, Repr

/-- Whether a format string contains a month directive — the source's
`any(x in datefmt for x in ['%m', '%b', '%B'])` test, evaluated on the three
concrete format strings. -/
def DateFmt.hasMonthDirective : DateFmt → Bool
  | .ymd => true
  | .ym => true
  | .y => false

/-- Whether a format string contains a day directive — the source's test for
`'%d'`/`'%j'`, evaluated on the three concrete format strings. -/
def DateFmt.hasDayDirective : DateFmt → Bool
  | .ymd => true
  | .ym => false
  | .y => false

/-- `INPUTFMTS` (indexers.py:58): formats are tried in this order. -/
def INPUTFMTS : List DateFmt := [DateFmt.ymd, DateFmt.ym, DateFmt.y]

/-- `time.strptime(v, fmt)` for the three supported formats, returning
`none` where the source raises `ValueError` (regex mismatch, leftover input,
or an invalid calendar date rejected by `datetime.date`). -/
def strptime (v : Str) (fmt : DateFmt) : Option Tm :=
  match fmt with
  | .ymd =>
    match pySplitAll '-' v with
    | [ys, ms, ds] =>
      if yearTok ys && numTok 1 12 ms && numTok 1 31 ds then
        let y := digitsToNat ys
        let m := digitsToNat ms
        let d := digitsToNat ds
        if decide (1 ≤ y) && decide (d ≤ daysInMonth y m) then some ⟨y, m, d⟩
        else Option.none
      else Option.none
    | _ => Option.none
  | .ym =>
    match pySplitAll '-' v with
    | [ys, ms] =>
      if yearTok ys && numTok 1 12 ms && decide (1 ≤ digitsToNat ys) then
        some ⟨digitsToNat ys, digitsToNat ms, 1⟩
      else Option.none
    | _ => Option.none
  | .y =>
    match pySplitAll '-' v with
    | [ys] =>
      if yearTok ys && decide (1 ≤ digitsToNat ys) then some ⟨digitsToNat ys, 1, 1⟩
      else Option.none
    | _ => Option.none

/-- Decimal rendering of a natural number. -/
def natToStr (n : Nat) : Str := (Nat.repr n).data

/-- Zero-padded two-digit rendering, as `strftime`'s `%m`/`%d` produce. -/
def pad2 (n : Nat) : Str := if n < 10 then '0' :: natToStr n else natToStr n

/-- Days in the months before month `m` of year `y`. -/
def daysBeforeMonth (y m : Nat) : Nat :=
  (List.range (m - 1)).foldl (fun a i => a + daysInMonth y (i + 1)) 0

/-- `datetime.date.toordinal`: day number with 0001-01-01 as day 1. -/
def toOrdinal (t : Tm) : Nat :=
  365 * (t.year - 1) + (t.year - 1) / 4 - (t.year - 1) / 100 + (t.year - 1) / 400
    + daysBeforeMonth t.year t.month + t.day

/-- Weekday with Monday = 0 (the `struct_time.tm_wday` convention);
0001-01-01 was a Monday. -/
def weekdayIdx (t : Tm) : Nat := (toOrdinal t + 6) % 7

/-- `strftime('%a')` weekday abbreviations in the C locale (the `%a`
directive is locale-dependent; the untranslated locale is modelled). -/
def weekdayAbbrev : Nat → Str
  | 0 => "Mon".data
  | 1 => "Tue".data
  | 2 => "Wed".data
  | 3 => "Thu".data
  | 4 => "Fri".data
  | 5 => "Sat".data
  | _ => "Sun".data

/-- `strftime('%Y 年', t)` — `DISPFMTS_Y` (indexers.py:59). -/
def fmtY (t : Tm) : Str := natToStr t.year ++ " 年".data

/-- `strftime('%m 月', t)` — `DISPFMTS_M` (indexers.py:60). -/
def fmtM (t : Tm) : Str := pad2 t.month ++ " 月".data

/-- `strftime('%Y 年 %m 月', t)` — `DISPFMTS_YM` (indexers.py:61). -/
def fmtYM (t : Tm) : Str := natToStr t.year ++ " 年 ".data ++ pad2 t.month ++ " 月".data

/-- `strftime('%d 日，%a', t)` — `DISPFMTS_DW` (indexers.py:62). -/
def fmtDW (t : Tm) : Str := pad2 t.day ++ " 日，".data ++ weekdayAbbrev (weekdayIdx t)

/-- `YearIndexer.classify` (indexers.py:93-117): for every list element try
every input format (no break — each successful format appends an entry); a
format without a month directive yields a bare main-only category, one
without a day directive yields `sub` with the explicit empty-string `extra`
sentinel, otherwise `sub` plus the formatted day/weekday `extra`. -/
def year_classify (objref : Value) : List Category :=
  (objref.as_list.map (fun v =>
    INPUTFMTS.filterMap (fun datefmt =>
      match strptime v datefmt with
      | Option.none => Option.none
      | some t =>
        some (if !datefmt.hasMonthDirective then
            Category.mk (fmtY t) Option.none Option.none
          else if !datefmt.hasDayDirective then
            Category.mk (fmtY t) (some (fmtM t)) (some [])
          else
            Category.mk (fmtY t) (some (fmtM t)) (some (fmtDW t)))))).flatten

/-- `MonthIndexer.classify` (indexers.py:154-171): same scheme but year and
month fold into `main`, and a format with a day directive sets only `extra`
(no `sub` at all). -/
def month_classify (objref : Value) : List Category :=
  (objref.as_list.map (fun v =>
    INPUTFMTS.filterMap (fun datefmt =>
      match strptime v datefmt with
      | Option.none => Option.none
      | some t =>
        some (if !datefmt.hasDayDirective then
            Category.mk (fmtYM t) Option.none Option.none
          else
            { main := fmtYM t, extra := some (fmtDW t) })))).flatten

-- ======================================================================
-- C7: Year classifier category shapes
-- ======================================================================

theorem year_classify_str (v : Str) :
    year_classify (Value.str v) =
      INPUTFMTS.filterMap (fun datefmt =>
        match strptime v datefmt with
        | Option.none => Option.none
        | some t =>
          some (if !datefmt.hasMonthDirective then
              Category.mk (fmtY t) Option.none Option.none
            else if !datefmt.hasDayDirective then
              Category.mk (fmtY t) (some (fmtM t)) (some [])
            else
              Category.mk (fmtY t) (some (fmtM t)) (some (fmtDW t)))) := by
  simp [year_classify, Value.as_list]

/-- C7: shapes of the categories produced by the Year classifier.  When the
winning input format is `%Y-%m-%d` the category has formatted year, month
and day+weekday; when it is `%Y-%m` (no day directive) the category has
`sub` set and the explicit empty-string `extra` sentinel; when it is `%Y`
(no month directive) the category is bare main-only.  In particular
`"2023-10"` yields `sub` present with `extra = ""` and `"2023"` yields
`sub = None`. -/
theorem any_C7 :
    (∀ v t, strptime v DateFmt.ymd = some t →
        year_classify (Value.str v)
          = [Category.mk (fmtY t) (some (fmtM t)) (some (fmtDW t))]) ∧
    (∀ v t, strptime v DateFmt.ym = some t →
        year_classify (Value.str v)
          = [Category.mk (fmtY t) (some (fmtM t)) (some [])]) ∧
    (∀ v t, strptime v DateFmt.y = some t →
        year_classify (Value.str v)
          = [Category.mk (fmtY t) Option.none Option.none]) ∧
    year_classify (Value.str "2023-10".data)
      = [Category.mk "2023 年".data (some "10 月".data) (some [])] ∧
    year_classify (Value.str "2023".data)
      = [Category.mk "2023 年".data Option.none Option.none] := by
  refine ⟨?_, ?_, ?_, by decide, by decide⟩
  · intro v t h
    rw [year_classify_str]
    match hs : pySplitAll '-' v with
    | [] => simp [strptime, hs] at h
    | [a] => simp [strptime, hs] at h
    | [a, b] => simp [strptime, hs] at h
    | [a, b, c] =>
      simp only [INPUTFMTS, List.filterMap, h]
      have hym : strptime v DateFmt.ym = Option.none := by simp [strptime, hs]
      have hy : strptime v DateFmt.y = Option.none := by simp [strptime, hs]
      simp [hym, hy, DateFmt.hasMonthDirective, DateFmt.hasDayDirective]
    | a :: b :: c :: d :: l => simp [strptime, hs] at h
  · intro v t h
    rw [year_classify_str]
    match hs : pySplitAll '-' v with
    | [] => simp [strptime, hs] at h
    | [a] => simp [strptime, hs] at h
    | [a, b] =>
      simp only [INPUTFMTS, List.filterMap, h]
      have hymd : strptime v DateFmt.ymd = Option.none := by simp [strptime, hs]
      have hy : strptime v DateFmt.y = Option.none := by simp [strptime, hs]
      simp [hymd, hy, DateFmt.hasMonthDirective, DateFmt.hasDayDirective]
    | [a, b, c] => simp [strptime, hs] at h
    | a :: b :: c :: d :: l => simp [strptime, hs] at h
  · intro v t h
    rw [year_classify_str]
    match hs : pySplitAll '-' v with
    | [] => simp [strptime, hs] at h
    | [a] =>
      simp only [INPUTFMTS, List.filterMap, h]
      have hymd : strptime v DateFmt.ymd = Option.none := by simp [strptime, hs]
      have hym : strptime v DateFmt.ym = Option.none := by simp [strptime, hs]
      simp [hymd, hym, DateFmt.hasMonthDirective, DateFmt.hasDayDirective]
    | [a, b] => simp [strptime, hs] at h
    | [a, b, c] => simp [strptime, hs] at h
    | a :: b :: c :: d :: l => simp [strptime, hs] at h

/-- C7 witness: the shape theorem applied at the concrete full date
`2023-10-11` (a Wednesday). -/
theorem any_C7_witness :
    year_classify (Value.str "2023-10-11".data)
      = [Category.mk "2023 年".data (some "10 月".data) (some "11 日，Wed".data)] :=
  any_C7.1 "2023-10-11".data ⟨2023, 10, 11⟩ (by decide)

-- ======================================================================
-- C6: extra set implies sub set
-- ======================================================================

/-- C6 (amended): every category produced by the Literal and Year
classifiers satisfies the invariant `extra` set implies `sub` set.  (The
Path and Month classifiers violate it, see the counterexample.) -/
theorem any_C6 (v : Value) :
    (∀ c ∈ literal_classify v, c.extra ≠ Option.none → c.sub ≠ Option.none) ∧
    (∀ c ∈ year_classify v, c.extra ≠ Option.none → c.sub ≠ Option.none) := by
  constructor
  · intro c hc
    rcases List.mem_map.mp hc with ⟨x, _, hx⟩
    subst hx
    intro h
    exact absurd rfl h
  · intro c hc hextra
    unfold year_classify at hc
    rcases List.mem_flatten.mp hc with ⟨inner, hinner, hcin⟩
    rcases List.mem_map.mp hinner with ⟨x, _, hx⟩
    subst hx
    rcases List.mem_filterMap.mp hcin with ⟨fmt, _, hfmt⟩
    cases hmatch : strptime x fmt with
    | none => rw [hmatch] at hfmt; exact absurd hfmt (by simp)
    | some t =>
      rw [hmatch] at hfmt
      cases fmt with
      | ymd =>
        simp only [DateFmt.hasMonthDirective, DateFmt.hasDayDirective,
          Bool.not_true, Bool.false_eq_true, if_false, Option.some.injEq] at hfmt
        rw [← hfmt]
        simp
      | ym =>
        simp only [DateFmt.hasMonthDirective, DateFmt.hasDayDirective,
          Bool.not_true, Bool.not_false, Bool.false_eq_true, if_false, if_true,
          Option.some.injEq] at hfmt
        rw [← hfmt]
        simp
      | y =>
        simp only [DateFmt.hasMonthDirective, Bool.not_false, if_true,
          Option.some.injEq] at hfmt
        rw [← hfmt] at hextra
        exact absurd rfl hextra

/-- C6 counterexample: the claim fails for the built-in Path and Month
classifiers.  `PathIndexer('/', 2)` (the registry's `slash` indexer) on the
value `"a"` produces a category with `extra = "a"` but `sub = None`, and the
Month classifier on `"2023-10-11"` produces a category with the day/weekday
`extra` set but no `sub` at all. -/
theorem any_C6_counterexample :
    ¬ (∀ c ∈ path_classify ⟨'/', 2⟩ (Value.str "a".data),
        c.extra ≠ Option.none → c.sub ≠ Option.none) ∧
    ¬ (∀ c ∈ month_classify (Value.str "2023-10-11".data),
        c.extra ≠ Option.none → c.sub ≠ Option.none) := by
  decide

/-- C6 witness: the amended invariant applied to a concrete Year-classifier
category for `"2023-10"`. -/
theorem any_C6_witness :
    Category.mk "2023 年".data (some "10 月".data) (some [])
        ∈ year_classify (Value.str "2023-10".data) ∧
    (Category.mk "2023 年".data (some "10 月".data) (some [])).sub ≠ Option.none :=
  ⟨by decide, (any_C6 (Value.str "2023-10".data)).2 _ (by decide) (by decide)⟩

-- ======================================================================
-- Python set primitives (insertion-ordered duplicate-free lists)
-- ======================================================================

/-- Python `set.add`: append when not already present. -/
def sadd (l : List Str) (x : Str) : List Str := if x ∈ l then l else l ++ [x]

/-- Python `set.update`: add every element. -/
def sunion (l : List Str) (xs : List Str) : List Str := xs.foldl sadd l

/-- Python set difference `l - xs`. -/
def sdiff (l xs : List Str) : List Str := l.filter (fun x => decide (x ∉ xs))

theorem mem_sadd {l : List Str} {x i : Str} : i ∈ sadd l x ↔ i ∈ l ∨ i = x := by
  unfold sadd
  by_cases hx : x ∈ l
  · simp only [hx, if_true]
    exact ⟨Or.inl, fun h => h.elim id (fun he => he ▸ hx)⟩
  · simp [hx]

theorem mem_sunion {b a : List Str} {i : Str} : i ∈ sunion a b ↔ i ∈ a ∨ i ∈ b := by
  induction b generalizing a with
  | nil => simp [sunion]
  | cons x xs ih =>
    show i ∈ sunion (sadd a x) xs ↔ _
    rw [ih, mem_sadd]
    simp [or_assoc]

theorem nodup_sadd {l : List Str} {x : Str} (h : l.Nodup) : (sadd l x).Nodup := by
  unfold sadd
  by_cases hx : x ∈ l
  · simpa [hx]
  · simp only [hx, if_false]
    exact h.append (List.nodup_singleton x)
      (fun a ha hax => hx ((List.mem_singleton.mp hax) ▸ ha))

theorem nodup_sunion {b a : List Str} (h : a.Nodup) : (sunion a b).Nodup := by
  induction b generalizing a with
  | nil => exact h
  | cons x xs ih => exact ih (nodup_sadd h)

theorem mem_sdiff {l xs : List Str} {i : Str} : i ∈ sdiff l xs ↔ i ∈ l ∧ i ∉ xs := by
  simp [sdiff, List.mem_filter]

-- ======================================================================
-- Python dict lemmas
-- ======================================================================

theorem dlookup_eq_none_iff {κ ν : Type} [DecidableEq κ] {l : List (κ × ν)} {k : κ} :
    dlookup l k = Option.none ↔ k ∉ l.map Prod.fst := by
  induction l with
  | nil => simp [dlookup]
  | cons p rest ih =>
    obtain ⟨k', v⟩ := p
    by_cases h : k = k' <;> simp [dlookup, h, ih]

theorem mem_of_dlookup_eq_some {κ ν : Type} [DecidableEq κ] {l : List (κ × ν)} {k : κ}
    {v : ν} (h : dlookup l k = some v) : (k, v) ∈ l := by
  induction l with
  | nil => simp [dlookup] at h
  | cons p rest ih =>
    obtain ⟨k', v'⟩ := p
    by_cases hk : k = k'
    · subst hk
      simp [dlookup] at h
      subst h
      exact List.mem_cons_self _ _
    · simp only [dlookup, hk, if_false] at h
      exact List.mem_cons_of_mem _ (ih h)

theorem dlookup_eq_some_iff_mem {κ ν : Type} [DecidableEq κ] {l : List (κ × ν)}
    (h : (l.map Prod.fst).Nodup) {k : κ} {v : ν} :
    dlookup l k = some v ↔ (k, v) ∈ l := by
  refine ⟨mem_of_dlookup_eq_some, fun hmem => ?_⟩
  induction l with
  | nil => simp at hmem
  | cons p rest ih =>
    obtain ⟨k', v'⟩ := p
    simp only [List.map_cons, List.nodup_cons] at h
    rcases List.mem_cons.mp hmem with heq | hmem'
    · rw [Prod.mk.injEq] at heq
      obtain ⟨h1, h2⟩ := heq
      subst h1
      subst h2
      simp [dlookup]
    · have hk : k ≠ k' := by
        intro he
        subst he
        exact h.1 (List.mem_map.mpr ⟨(k, v), hmem', rfl⟩)
      simp only [dlookup, hk, if_false]
      exact ih h.2 hmem'

/-- Python `del d[k]`: remove the (unique) entry with key `k`. -/
def ddel {κ ν : Type} [DecidableEq κ] : List (κ × ν) → κ → List (κ × ν)
  | [], _ => []
  | (k', v') :: rest, k => if k = k' then rest else (k', v') :: ddel rest k

theorem ddel_map_fst_sublist {κ ν : Type} [DecidableEq κ] (l : List (κ × ν)) (k : κ) :
    ((ddel l k).map Prod.fst).Sublist (l.map Prod.fst) := by
  induction l with
  | nil => simp [ddel]
  | cons p rest ih =>
    obtain ⟨k', v'⟩ := p
    by_cases h : k = k'
    · simp only [ddel, h, if_pos rfl]
      exact (List.sublist_cons_self _ _)
    · simp only [ddel, h, if_false, List.map_cons]
      exact ih.cons₂ _

theorem nodup_ddel {κ ν : Type} [DecidableEq κ] {l : List (κ × ν)}
    (h : (l.map Prod.fst).Nodup) (k : κ) : (((ddel l k).map Prod.fst)).Nodup :=
  h.sublist (ddel_map_fst_sublist l k)

theorem dlookup_ddel {κ ν : Type} [DecidableEq κ] {l : List (κ × ν)}
    (h : (l.map Prod.fst).Nodup) {k k' : κ} :
    dlookup (ddel l k') k = if k = k' then Option.none else dlookup l k := by
  induction l with
  | nil => simp only [ddel, dlookup]; split <;> rfl
  | cons p rest ih =>
    obtain ⟨a, b⟩ := p
    simp only [List.map_cons, List.nodup_cons] at h
    by_cases hk' : k' = a
    · subst hk'
      simp only [ddel, if_pos rfl]
      by_cases hk : k = k'
      · subst hk
        rw [if_pos rfl, dlookup_eq_none_iff]
        exact h.1
      · simp [dlookup, hk]
    · simp only [ddel, hk', if_false]
      by_cases hk : k = a
      · subst hk
        have hkk' : k ≠ k' := fun he => hk' he.symm
        simp [dlookup, hkk']
      · simp only [dlookup, hk, if_false]
        exact ih h.2

theorem dlookup_foldl_ddel {κ ν : Type} [DecidableEq κ] {ks : List κ}
    {d : List (κ × ν)} (h : (d.map Prod.fst).Nodup) {k : κ} :
    dlookup (ks.foldl ddel d) k = if k ∈ ks then Option.none else dlookup d k := by
  induction ks generalizing d with
  | nil => simp
  | cons k0 ks ih =>
    rw [List.foldl_cons, ih (nodup_ddel h k0), dlookup_ddel h]
    by_cases h1 : k ∈ ks <;> by_cases h2 : k = k0 <;> simp [h1, h2]

-- ======================================================================
-- domain.py: the ObjDomain registry data
-- ======================================================================

/-- Key of the objects dict: `(objtype, objid)` (domain.py:245). -/
abbrev ObjKey := Str × Str

/-- Key of the references dict: `(objtype, objfield, objref)`
(domain.py:250). -/
abbrev RefKey := Str × Str × Str

/-- One stored object entry: `(docname, anchor, obj)` (domain.py:245).  The
object payload is opaque to the registry operations; the objects.py `Object`
stands in for it. -/
structure ObjEntry where
  docname : Str
  anchor : Str
  obj : Object
deriving DecidableEq, Repr

/-- The domain's mutable data (domain.py:80-83, 244-252):
`objects : (objtype, objid) -> (docname, anchor, obj)` and
`references : (objtype, objfield, objref) -> set(objid)`. -/
structure Registry where
  objects : List (ObjKey × ObjEntry)
  references : List (RefKey × List Str)
deriving DecidableEq, Repr

/-- The keys collected by `clear_doc`'s first loop (domain.py:98-101): keys
of object entries stored at `docname`. -/
def clearDocObjKeys (reg : Registry) (docname : Str) : List ObjKey :=
  (reg.objects.filter (fun p => decide (p.2.docname = docname))).map Prod.fst

/-- The `objids` set of `clear_doc` (domain.py:103-106): identifiers of the
deleted entries, with no regard to their object type. -/
def clearDocObjIds (reg : Registry) (docname : Str) : List Str :=
  (clearDocObjKeys reg docname).foldl (fun s k => sadd s k.2) []

/-- The per-bucket update of `clear_doc`'s reference loops
(domain.py:108-116): a bucket is re-bound to `ids - objids` when that
difference is non-empty (the walrus `if ids := ids - objids`), and deleted
otherwise. -/
def refsPrune (rem : List Str) (p : RefKey × List Str) : Option (RefKey × List Str) :=
  let ids' := sdiff p.2 rem
  if ids' ≠ [] then some (p.1, ids') else Option.none

/-- `ObjDomain.clear_doc` (domain.py:97-116): delete every object entry
stored at `docname`; then, per reference bucket, re-bind the bucket to
`ids - objids` when that difference is non-empty and delete the bucket
otherwise.  The source performs this with an in-place value loop followed by
a key-delete loop; on a dict (unique keys, order preserved) that equals this
order-preserving `filterMap`. -/
def clear_doc (reg : Registry) (docname : Str) : Registry :=
  let objkeys := clearDocObjKeys reg docname
  let objects' := objkeys.foldl ddel reg.objects
  let objids := clearDocObjIds reg docname
  let references' := reg.references.filterMap (refsPrune objids)
  ⟨objects', references'⟩

theorem refsPrune_eq_some {rem : List Str} {p : RefKey × List Str}
    (h : sdiff p.2 rem ≠ []) : refsPrune rem p = some (p.1, sdiff p.2 rem) := by
  simp only [refsPrune]
  exact if_pos h

theorem refsPrune_eq_none {rem : List Str} {p : RefKey × List Str}
    (h : ¬ sdiff p.2 rem ≠ []) : refsPrune rem p = Option.none := by
  simp only [refsPrune]
  exact if_neg h

theorem dlookup_refs_filterMap (l : List (RefKey × List Str))
    (h : (l.map Prod.fst).Nodup) (rem : List Str) (k : RefKey) :
    dlookup (l.filterMap (refsPrune rem)) k
      = (dlookup l k).bind (fun ids =>
          if sdiff ids rem ≠ [] then some (sdiff ids rem) else Option.none) := by
  induction l with
  | nil => simp [dlookup]
  | cons p rest ih =>
    obtain ⟨a, ids0⟩ := p
    simp only [List.map_cons, List.nodup_cons] at h
    by_cases hk : k = a
    · subst hk
      by_cases hne : sdiff ids0 rem ≠ []
      · rw [List.filterMap_cons_some (refsPrune_eq_some hne)]
        simp [dlookup, hne]
      · rw [List.filterMap_cons_none (refsPrune_eq_none hne)]
        have hnone : dlookup (rest.filterMap (refsPrune rem)) k = Option.none := by
          rw [dlookup_eq_none_iff]
          intro hmem
          apply h.1
          rcases List.mem_map.mp hmem with ⟨q, hq, hqk⟩
          rcases List.mem_filterMap.mp hq with ⟨p0, hp0, hp0q⟩
          by_cases hx : sdiff p0.2 rem ≠ []
          · rw [refsPrune_eq_some hx] at hp0q
            cases Option.some.inj hp0q
            exact List.mem_map.mpr ⟨p0, hp0, hqk⟩
          · rw [refsPrune_eq_none hx] at hp0q
            exact absurd hp0q (by simp)
        rw [hnone]
        have he : sdiff ids0 rem = [] := not_not.mp hne
        simp [dlookup, he]
    · have hstep : dlookup (((a, ids0) :: rest).filterMap (refsPrune rem)) k
          = dlookup (rest.filterMap (refsPrune rem)) k := by
        by_cases hne : sdiff ids0 rem ≠ []
        · rw [List.filterMap_cons_some (refsPrune_eq_some hne)]
          simp [dlookup, hk]
        · rw [List.filterMap_cons_none (refsPrune_eq_none hne)]
      rw [hstep, ih h.2]
      simp [dlookup, hk]

theorem mem_foldl_sadd_snd {l : List ObjKey} {acc : List Str} {i : Str} :
    i ∈ l.foldl (fun s k => sadd s k.2) acc ↔ i ∈ acc ∨ ∃ k ∈ l, k.2 = i := by
  induction l generalizing acc with
  | nil => simp
  | cons x xs ih =>
    rw [List.foldl_cons, ih, mem_sadd]
    constructor
    · rintro (⟨ha | he⟩ | ⟨k, hk, hki⟩)
      · exact Or.inl ha
      · exact Or.inr ⟨x, List.mem_cons_self _ _, he.symm⟩
      · exact Or.inr ⟨k, List.mem_cons_of_mem _ hk, hki⟩
    · rintro (ha | ⟨k, hk, hki⟩)
      · exact Or.inl (Or.inl ha)
      · rcases List.mem_cons.mp hk with he | hk'
        · exact Or.inl (Or.inr (he ▸ hki.symm))
        · exact Or.inr ⟨k, hk', hki⟩

theorem mem_clearDocObjIds {reg : Registry} {docname : Str} {i : Str} :
    i ∈ clearDocObjIds reg docname ↔
      ∃ t e, ((t, i), e) ∈ reg.objects ∧ e.docname = docname := by
  unfold clearDocObjIds
  rw [mem_foldl_sadd_snd]
  simp only [List.mem_nil_iff, false_or]
  constructor
  · rintro ⟨k, hk, hki⟩
    rcases List.mem_map.mp hk with ⟨p, hp, hpk⟩
    rcases List.mem_filter.mp hp with ⟨hmem, hdoc⟩
    refine ⟨p.1.1, p.2, ?_, ?_⟩
    · have hkey : p.1 = (p.1.1, i) := by
        rw [← hpk] at hki
        exact Prod.ext rfl hki
      rw [← hkey]
      simpa using hmem
    · simpa using hdoc
  · rintro ⟨t, e, hmem, hdoc⟩
    refine ⟨(t, i), ?_, rfl⟩
    unfold clearDocObjKeys
    exact List.mem_map.mpr ⟨((t, i), e), List.mem_filter.mpr ⟨hmem, by simpa using hdoc⟩, rfl⟩

theorem mem_clearDocObjKeys {reg : Registry} {docname : Str} {k : ObjKey} :
    k ∈ clearDocObjKeys reg docname ↔
      ∃ e, (k, e) ∈ reg.objects ∧ e.docname = docname := by
  unfold clearDocObjKeys
  constructor
  · intro hk
    rcases List.mem_map.mp hk with ⟨p, hp, hpk⟩
    rcases List.mem_filter.mp hp with ⟨hmem, hdoc⟩
    exact ⟨p.2, by rw [← hpk]; simpa using hmem, by simpa using hdoc⟩
  · rintro ⟨e, hmem, hdoc⟩
    exact List.mem_map.mpr ⟨(k, e), List.mem_filter.mpr ⟨hmem, by simpa using hdoc⟩, rfl⟩

/-- C4 (amended): after `clear_doc(docname)`, (1) an object entry survives
exactly when it was present before and not stored at `docname`; (2) a
reference bucket survives exactly when removing the identifiers of the
deleted entries leaves it non-empty, and then it equals that difference —
so no empty bucket survives; (3) the removed identifier set consists of the
identifiers of all entries at `docname`, of any object type: an identifier
is removed from every bucket of every type, even when an object of another
type with the same identifier survives. -/
theorem any_C4 (reg : Registry) (docname : Str)
    (hobj : (reg.objects.map Prod.fst).Nodup)
    (href : (reg.references.map Prod.fst).Nodup) :
    (∀ k e, dlookup (clear_doc reg docname).objects k = some e ↔
        (dlookup reg.objects k = some e ∧ e.docname ≠ docname)) ∧
    (∀ k ids', dlookup (clear_doc reg docname).references k = some ids' ↔
        ∃ ids, dlookup reg.references k = some ids ∧
          ids' = sdiff ids (clearDocObjIds reg docname) ∧ ids' ≠ []) ∧
    (∀ k ids ids' i, dlookup reg.references k = some ids →
        dlookup (clear_doc reg docname).references k = some ids' →
        (i ∈ ids' ↔ i ∈ ids ∧ i ∉ clearDocObjIds reg docname)) ∧
    (∀ i, i ∈ clearDocObjIds reg docname ↔
        ∃ t e, ((t, i), e) ∈ reg.objects ∧ e.docname = docname) := by
  have hrefs := dlookup_refs_filterMap reg.references href (clearDocObjIds reg docname)
  refine ⟨?_, ?_, ?_, fun i => mem_clearDocObjIds⟩
  · intro k e
    show dlookup ((clearDocObjKeys reg docname).foldl ddel reg.objects) k = some e ↔ _
    rw [dlookup_foldl_ddel hobj]
    by_cases hk : k ∈ clearDocObjKeys reg docname
    · simp only [hk, if_true]
      constructor
      · intro h
        exact absurd h (by simp)
      · rintro ⟨hl, hd⟩
        rcases mem_clearDocObjKeys.mp hk with ⟨e', hmem', hdoc'⟩
        have : e = e' := by
          have h2 := (dlookup_eq_some_iff_mem hobj).mpr hmem'
          rw [hl] at h2
          exact (Option.some.inj h2)
        exact absurd (this ▸ hdoc') hd
    · simp only [hk, if_false]
      constructor
      · intro hl
        refine ⟨hl, fun hd => hk ?_⟩
        exact mem_clearDocObjKeys.mpr ⟨e, mem_of_dlookup_eq_some hl, hd⟩
      · exact fun h => h.1
  · intro k ids'
    show dlookup (reg.references.filterMap _) k = some ids' ↔ _
    rw [hrefs k]
    cases hl : dlookup reg.references k with
    | none => simp
    | some ids =>
      simp only [Option.some_bind]
      by_cases hne : sdiff ids (clearDocObjIds reg docname) ≠ []
      · rw [if_pos hne]
        constructor
        · intro he
          cases Option.some.inj he
          exact ⟨ids, rfl, rfl, hne⟩
        · rintro ⟨ids0, hids0, he, _⟩
          cases Option.some.inj hids0
          rw [he]
      · rw [if_neg hne]
        constructor
        · intro h0
          exact absurd h0 (by simp)
        · rintro ⟨ids0, hids0, he, hne'⟩
          cases Option.some.inj hids0
          exact absurd (he ▸ hne') hne
  · intro k ids ids' i hl hl'
    replace hl' : dlookup (reg.references.filterMap
        (refsPrune (clearDocObjIds reg docname))) k = some ids' := hl'
    rw [hrefs k, hl] at hl'
    simp only [Option.some_bind] at hl'
    by_cases hne : sdiff ids (clearDocObjIds reg docname) ≠ []
    · rw [if_pos hne] at hl'
      cases Option.some.inj hl'
      exact mem_sdiff
    · rw [if_neg hne] at hl'
      exact absurd hl' (by simp)

/-- C4 counterexample: two objects with the same identifier `x` but
different types, `cat` at `doc1` and `dog` at `doc2`, and a reference bucket
of the surviving `dog` object.  Invalidating `doc1` removes `x` from the
dog's reference bucket (and drops the emptied bucket) even though the object
entry `(dog, x)` survives — refuting the claim that identifiers with a
surviving object entry keep their reference-set membership unchanged. -/
theorem any_C4_counterexample :
    dlookup (clear_doc
        ⟨[(("cat".data, "x".data), ⟨"doc1".data, "a1".data, ⟨"cat".data, Option.none, [], Option.none⟩⟩),
          (("dog".data, "x".data), ⟨"doc2".data, "a2".data, ⟨"dog".data, Option.none, [], Option.none⟩⟩)],
         [(("dog".data, "f".data, "v".data), ["x".data])]⟩
        "doc1".data).objects ("dog".data, "x".data)
      = some ⟨"doc2".data, "a2".data, ⟨"dog".data, Option.none, [], Option.none⟩⟩ ∧
    dlookup (clear_doc
        ⟨[(("cat".data, "x".data), ⟨"doc1".data, "a1".data, ⟨"cat".data, Option.none, [], Option.none⟩⟩),
          (("dog".data, "x".data), ⟨"doc2".data, "a2".data, ⟨"dog".data, Option.none, [], Option.none⟩⟩)],
         [(("dog".data, "f".data, "v".data), ["x".data])]⟩
        "doc1".data).references ("dog".data, "f".data, "v".data)
      = Option.none := by
  decide

/-- C4 witness: the amended characterization applied to a concrete registry
with one cat at `doc1`: its object entry is gone after invalidating
`doc1`. -/
theorem any_C4_witness :
    dlookup (clear_doc
        ⟨[(("cat".data, "c1".data), ⟨"doc1".data, "a1".data, ⟨"cat".data, Option.none, [], Option.none⟩⟩)],
          [(("cat".data, "id".data, "c1".data), ["c1".data])]⟩
        "doc1".data).objects ("cat".data, "c1".data)
      = some ⟨"doc1".data, "a1".data, ⟨"cat".data, Option.none, [], Option.none⟩⟩ ↔
    (dlookup (⟨[(("cat".data, "c1".data), ⟨"doc1".data, "a1".data, ⟨"cat".data, Option.none, [], Option.none⟩⟩)],
          [(("cat".data, "id".data, "c1".data), ["c1".data])]⟩ : Registry).objects
        ("cat".data, "c1".data)
      = some ⟨"doc1".data, "a1".data, ⟨"cat".data, Option.none, [], Option.none⟩⟩ ∧
      ("doc1".data : Str) ≠ "doc1".data) :=
  (any_C4
    ⟨[(("cat".data, "c1".data), ⟨"doc1".data, "a1".data, ⟨"cat".data, Option.none, [], Option.none⟩⟩)],
      [(("cat".data, "id".data, "c1".data), ["c1".data])]⟩
    "doc1".data (by decide) (by decide)).1
    ("cat".data, "c1".data) ⟨"doc1".data, "a1".data, ⟨"cat".data, Option.none, [], Option.none⟩⟩

-- ======================================================================
-- domain.py: resolve_xref
-- ======================================================================

/-- Outcome of `ObjDomain.resolve_xref` (domain.py:119-168): a link to the
index page with an anchor (the ambiguous/indexer case), a link to the stored
object entry (resolved), or `None` (missing — returned without raising, the
reference may still be satisfied by an external resolver). -/
inductive ResolveResult where
  | ambiguous (todocname : Str) (anchor : Str) : ResolveResult
  | resolved (todocname : Str) (anchor : Str) (obj : Object) : ResolveResult
  | missing : ResolveResult
deriving DecidableEq, Repr

/-- The `objids` computation of `resolve_xref` (domain.py:133-143): with a
truthy indexer no lookup happens; with a truthy field the single bucket
`(objtype, field, target)` is taken (the walrus test skips an empty or
absent bucket); otherwise the union over all buckets with matching type and
reference value. -/
def xref_ids (reg : Registry) (objtype : Str) (objfield objidx : Option Str)
    (target : Str) : List Str :=
  if pyTruthy objidx then []
  else if pyTruthy objfield then
    match dlookup reg.references (objtype, objfield.getD [], target) with
    | some ids => if ids ≠ [] then sunion [] ids else []
    | Option.none => []
  else
    reg.references.foldl (fun acc p =>
      if p.1.1 = objtype ∧ p.1.2.2 = target then sunion acc p.2 else acc) []

/-- `ObjDomain.resolve_xref` (domain.py:119-168).  `indexInfo` stands for
the `indices_for_reftype` registration consulted by `_get_index_anchor`
(domain.py:284-303): the index page name and the indexer's anchor function
(the source guards the anchor computation with try/except defaulting to
`''`; a failing anchor is an `anchorFn` returning `''`).  A missing
registration, like a missing object entry, raises `KeyError`.  The rendered
content node (`pending_node`, templates) is presentation and not modelled;
the resolved case carries the stored entry used by `make_refnode`. -/
def resolve_xref (reg : Registry) (indexInfo : Option (Str × (Str → Str)))
    (objtype : Str) (objfield objidx : Option Str) (target : Str) :
    Except PyErr ResolveResult :=
  let objids := xref_ids reg objtype objfield objidx target
  if 1 < objids.length ∨ objidx ≠ Option.none then
    match indexInfo with
    | some ii => .ok (.ambiguous ("obj-".data ++ ii.1) (ii.2 target))
    | Option.none => .error .keyError
  else
    match objids with
    | [objid] =>
      match dlookup reg.objects (objtype, objid) with
      | some e => .ok (.resolved e.docname e.anchor e.obj)
      | Option.none => .error .keyError
    | _ => .ok .missing

/-- The identifiers a lookup `(objtype, field?, target)` matches, stated on
the registry directly: with a truthy field, membership in that field's
bucket; otherwise membership in any bucket of the type with that reference
value. -/
def MatchesRef (reg : Registry) (objtype : Str) (objfield : Option Str)
    (target i : Str) : Prop :=
  if pyTruthy objfield then
    ∃ ids, dlookup reg.references (objtype, objfield.getD [], target) = some ids ∧ i ∈ ids
  else
    ∃ f ids, ((objtype, f, target), ids) ∈ reg.references ∧ i ∈ ids

theorem mem_foldl_union {P : RefKey × List Str → Prop} [DecidablePred P]
    {l : List (RefKey × List Str)} {acc : List Str} {i : Str} :
    i ∈ l.foldl (fun acc p => if P p then sunion acc p.2 else acc) acc ↔
      i ∈ acc ∨ ∃ p ∈ l, P p ∧ i ∈ p.2 := by
  induction l generalizing acc with
  | nil => simp
  | cons q rest ih =>
    rw [List.foldl_cons, ih]
    by_cases hq : P q
    · rw [if_pos hq, mem_sunion]
      constructor
      · rintro (⟨ha | hb⟩ | ⟨p, hp, hP, hi⟩)
        · exact Or.inl ha
        · exact Or.inr ⟨q, List.mem_cons_self _ _, hq, hb⟩
        · exact Or.inr ⟨p, List.mem_cons_of_mem _ hp, hP, hi⟩
      · rintro (ha | ⟨p, hp, hP, hi⟩)
        · exact Or.inl (Or.inl ha)
        · rcases List.mem_cons.mp hp with he | hp'
          · exact Or.inl (Or.inr (he ▸ hi))
          · exact Or.inr ⟨p, hp', hP, hi⟩
    · rw [if_neg hq]
      constructor
      · rintro (ha | ⟨p, hp, hP, hi⟩)
        · exact Or.inl ha
        · exact Or.inr ⟨p, List.mem_cons_of_mem _ hp, hP, hi⟩
      · rintro (ha | ⟨p, hp, hP, hi⟩)
        · exact Or.inl ha
        · rcases List.mem_cons.mp hp with he | hp'
          · exact absurd (he ▸ hP) hq
          · exact Or.inr ⟨p, hp', hP, hi⟩

theorem nodup_foldl_union {P : RefKey × List Str → Prop} [DecidablePred P]
    {l : List (RefKey × List Str)} {acc : List Str} (h : acc.Nodup) :
    (l.foldl (fun acc p => if P p then sunion acc p.2 else acc) acc).Nodup := by
  induction l generalizing acc with
  | nil => exact h
  | cons q rest ih =>
    rw [List.foldl_cons]
    by_cases hq : P q
    · rw [if_pos hq]
      exact ih (nodup_sunion h)
    · rw [if_neg hq]
      exact ih h

theorem nodup_xref_ids (reg : Registry) (objtype : Str) (objfield objidx : Option Str)
    (target : Str) : (xref_ids reg objtype objfield objidx target).Nodup := by
  unfold xref_ids
  by_cases h1 : pyTruthy objidx = true
  · simp [h1]
  · rw [if_neg h1]
    by_cases h2 : pyTruthy objfield = true
    · rw [if_pos h2]
      cases dlookup reg.references (objtype, objfield.getD [], target) with
      | none => exact List.nodup_nil
      | some ids =>
        by_cases hne : ids ≠ []
        · simpa [hne] using nodup_sunion (b := ids) List.nodup_nil
        · simp [hne]
    · rw [if_neg h2]
      exact nodup_foldl_union List.nodup_nil

theorem mem_xref_ids (reg : Registry) (objtype : Str) (objfield : Option Str)
    (target i : Str) :
    i ∈ xref_ids reg objtype objfield Option.none target ↔
      MatchesRef reg objtype objfield target i := by
  unfold xref_ids MatchesRef
  rw [if_neg (by decide : ¬ (pyTruthy (Option.none : Option Str) = true))]
  by_cases h2 : pyTruthy objfield = true
  · rw [if_pos h2, if_pos h2]
    cases hl : dlookup reg.references (objtype, objfield.getD [], target) with
    | none => simp
    | some ids =>
      show (i ∈ if ids ≠ [] then sunion [] ids else []) ↔
        ∃ ids0, some ids = some ids0 ∧ i ∈ ids0
      by_cases hne : ids ≠ []
      · rw [if_pos hne]
        rw [mem_sunion]
        simp
      · rw [if_neg hne]
        have he : ids = [] := not_not.mp hne
        subst he
        simp
  · rw [if_neg h2, if_neg h2]
    rw [mem_foldl_union]
    simp only [List.not_mem_nil, false_or]
    constructor
    · rintro ⟨p, hp, ⟨ht, hr⟩, hi⟩
      refine ⟨p.1.2.1, p.2, ?_, hi⟩
      have : p.1 = (objtype, p.1.2.1, target) := by
        obtain ⟨⟨a, b, c⟩, ids⟩ := p
        simp only at ht hr
        simp [ht, hr]
      rw [← this]
      simpa using hp
    · rintro ⟨f, ids, hmem, hi⟩
      exact ⟨((objtype, f, target), ids), hmem, ⟨rfl, rfl⟩, hi⟩

/-- C1: the resolve decision procedure.  Under the registry invariant that
every identifier in a reference bucket has a stored object entry of that
type: (1) an explicitly requested indexer yields Ambiguous with the index
page and the anchor of the target value; (2) two distinct matching
identifiers also yield that Ambiguous result; (3) exactly one matching
identifier (the singleton `xref_ids`) yields Resolved carrying the stored
object entry for `(objtype, identifier)`; (4) no matching identifier yields
Missing, returned without raising; and (5) `xref_ids` contains exactly the
matching identifiers of `MatchesRef`. -/
theorem any_C1 (reg : Registry) (ii : Str × (Str → Str)) (objtype : Str)
    (objfield objidx : Option Str) (target : Str)
    (hwf : ∀ p ∈ reg.references, ∀ i ∈ p.2, (dlookup reg.objects (p.1.1, i)).isSome) :
    (objidx ≠ Option.none →
      resolve_xref reg (some ii) objtype objfield objidx target
        = .ok (.ambiguous ("obj-".data ++ ii.1) (ii.2 target))) ∧
    (objidx = Option.none → ∀ i j, i ≠ j →
      MatchesRef reg objtype objfield target i →
      MatchesRef reg objtype objfield target j →
      resolve_xref reg (some ii) objtype objfield objidx target
        = .ok (.ambiguous ("obj-".data ++ ii.1) (ii.2 target))) ∧
    (objidx = Option.none → ∀ i,
      xref_ids reg objtype objfield objidx target = [i] →
      ∃ e, dlookup reg.objects (objtype, i) = some e ∧
        resolve_xref reg (some ii) objtype objfield objidx target
          = .ok (.resolved e.docname e.anchor e.obj)) ∧
    (objidx = Option.none →
      xref_ids reg objtype objfield objidx target = [] →
      resolve_xref reg (some ii) objtype objfield objidx target = .ok .missing) ∧
    (objidx = Option.none → ∀ i,
      i ∈ xref_ids reg objtype objfield objidx target ↔
        MatchesRef reg objtype objfield target i) := by
  refine ⟨?_, ?_, ?_, ?_, ?_⟩
  · intro hidx
    unfold resolve_xref
    rw [if_pos (Or.inr hidx)]
  · intro hidx i j hij hi hj
    subst hidx
    rw [← mem_xref_ids reg objtype objfield target i] at hi
    rw [← mem_xref_ids reg objtype objfield target j] at hj
    unfold resolve_xref
    refine if_pos (Or.inl ?_)
    match hids : xref_ids reg objtype objfield Option.none target with
    | [] => rw [hids] at hi; exact absurd hi (List.not_mem_nil i)
    | [x] =>
      rw [hids] at hi hj
      exact absurd ((List.mem_singleton.mp hi).trans (List.mem_singleton.mp hj).symm) hij
    | x :: y :: rest => simp
  · intro hidx i hids
    subst hidx
    have hi : i ∈ xref_ids reg objtype objfield Option.none target := by
      rw [hids]
      exact List.mem_singleton.mpr rfl
    have hm := (mem_xref_ids reg objtype objfield target i).mp hi
    have hsome : (dlookup reg.objects (objtype, i)).isSome := by
      unfold MatchesRef at hm
      by_cases h2 : pyTruthy objfield = true
      · rw [if_pos h2] at hm
        obtain ⟨ids, hl, hiid⟩ := hm
        exact hwf _ (mem_of_dlookup_eq_some hl) i hiid
      · rw [if_neg h2] at hm
        obtain ⟨f, ids, hmem, hiid⟩ := hm
        exact hwf _ hmem i hiid
    rcases Option.isSome_iff_exists.mp hsome with ⟨e, he⟩
    refine ⟨e, he, ?_⟩
    unfold resolve_xref
    rw [if_neg, hids]
    · simp only [he]
    · rw [hids]
      simp
  · intro hidx hids
    subst hidx
    unfold resolve_xref
    rw [if_neg, hids]
    rw [hids]
    simp
  · intro hidx i
    subst hidx
    exact mem_xref_ids reg objtype objfield target i

/-- C1 witness: the claim's cat scenario — a registry with one cat `c1`
whose unique `id` is `c1` and whose color is `black`; resolving by type with
target `c1` matches exactly `c1` and resolves to the stored entry. -/
theorem any_C1_witness :
    ∃ e, dlookup (⟨[(("cat".data, "c1".data),
          ⟨"doc1".data, "a1".data, ⟨"cat".data, Option.none, [], Option.none⟩⟩)],
        [(("cat".data, "id".data, "c1".data), ["c1".data]),
         (("cat".data, "color".data, "black".data), ["c1".data])]⟩ : Registry).objects
        ("cat".data, "c1".data) = some e ∧
      resolve_xref
        ⟨[(("cat".data, "c1".data),
            ⟨"doc1".data, "a1".data, ⟨"cat".data, Option.none, [], Option.none⟩⟩)],
          [(("cat".data, "id".data, "c1".data), ["c1".data]),
           (("cat".data, "color".data, "black".data), ["c1".data])]⟩
        (some ("cat".data, fun refval => literal_anchor refval))
        "cat".data Option.none Option.none "c1".data
        = .ok (.resolved e.docname e.anchor e.obj) :=
  (any_C1
    ⟨[(("cat".data, "c1".data),
        ⟨"doc1".data, "a1".data, ⟨"cat".data, Option.none, [], Option.none⟩⟩)],
      [(("cat".data, "id".data, "c1".data), ["c1".data]),
       (("cat".data, "color".data, "black".data), ["c1".data])]⟩
    ("cat".data, fun refval => literal_anchor refval)
    "cat".data Option.none Option.none "c1".data
    (by decide)).2.2.1 rfl "c1".data (by decide)

-- ======================================================================
-- objects.py: template contexts and the render boundary
-- ======================================================================

/-- Python `d[k] = v`: replace in place when present, append otherwise. -/
def dinsert {κ ν : Type} [DecidableEq κ] : List (κ × ν) → κ → ν → List (κ × ν)
  | [], k, v => [(k, v)]
  | (k', v') :: rest, k, v =>
    if k = k' then (k, v) :: rest else (k', v') :: dinsert rest k v

/-- A template context value: a string, a list of strings, or the marker for
the self-referential `'_'` entry (`context['_'] = context`,
objects.py:440-442, a cyclic reference recorded here as a tag). -/
inductive CtxVal where
  | s (v : Str) : CtxVal
  | l (v : List Str) : CtxVal
  | selfmap : CtxVal
deriving DecidableEq, Repr

/-- A template context: the dict passed to `tmpl.render`. -/
abbrev Context := List (Str × CtxVal)

/-- Context entry for a field value: `None` values are omitted entirely
(`set_if_not_none`, objects.py:430-432). -/
def valToCtx : Value → Option CtxVal
  | Value.none => Option.none
  | Value.str v => some (CtxVal.s v)
  | Value.list v => some (CtxVal.l v)

/-- `Schema.name_of` (objects.py:358-362). -/
def Schema.name_of (s : Schema) (obj : Object) : Except PyErr Value :=
  match s.name with
  | Option.none => .ok Value.none
  | some nf => nf.value_of obj.name

/-- `Schema.title_of` (objects.py:391-405): the first value of the name
field, or `None`. -/
def Schema.title_of (s : Schema) (obj : Object) : Except PyErr (Option Str) :=
  match s.name with
  | Option.none => .ok Option.none
  | some nf => do
    let name ← nf.value_of obj.name
    match name with
    | Value.str v => pure (some v)
    | Value.list (x :: _) => pure (some x)
    | _ => pure Option.none

/-- `Schema.content_of` (objects.py:368-372). -/
def Schema.content_of (s : Schema) (obj : Object) : Except PyErr Value :=
  match s.content with
  | Option.none => .ok Value.none
  | some cf => cf.value_of obj.content

/-- `set_if_not_none` (objects.py:430-432). -/
def setIfNotNone (ctx : Context) (k : Str) (v : Value) : Context :=
  match valToCtx v with
  | some cv => dinsert ctx k cv
  | Option.none => ctx

/-- `Schema._context_without_object` (objects.py:422-425): only the object
type. -/
def Schema.context_without_object (s : Schema) : Context :=
  [(TYPE_KEY, CtxVal.s s.objtype)]

/-- The `'_'` context key (objects.py:442). -/
def UNDERSCORE_KEY : Str := "_".data

/-- `Schema._context_of` (objects.py:427-444): type, then name, title,
content and each attribute when non-absent, then the self-referential `'_'`
entry.  The field accessors run `Field.value_of` and hence may raise its
assertion. -/
def Schema.context_of (s : Schema) (obj : Object) : Except PyErr Context := do
  let ctx := s.context_without_object
  let nv ← s.name_of obj
  let ctx := setIfNotNone ctx NAME_KEY nv
  let tv ← s.title_of obj
  let ctx := match tv with
    | some t => dinsert ctx TITLE_KEY (CtxVal.s t)
    | Option.none => ctx
  let cv ← s.content_of obj
  let ctx := setIfNotNone ctx CONTENT_KEY cv
  let avs ← s.attrs.mapM (fun p => do
    let v ← p.2.value_of (dlookup obj.attrs p.1)
    pure (p.1, v))
  let ctx := avs.foldl (fun ctx pv => setIfNotNone ctx pv.1 pv.2) ctx
  pure (dinsert ctx UNDERSCORE_KEY CtxVal.selfmap)

/-- The template engine
(`TemplateEnvironment().from_string(tmpl).render(context)`, a Jinja
environment defined outside objects.py): an opaque capability taking the
template text and the context and either producing the rendered string or
failing; the error payload is the stringified exception `str(e)`. -/
abbrev Engine := Str → Context → Except Str Str

/-- Python `str(e)` for the embedded exceptions (its exact text is opaque;
only its use as replacement output matters). -/
def pyErrStr : PyErr → Str
  | .assertionError => "AssertionError".data
  | .objectError m => m
  | .schemaError m => m
  | .keyError => "KeyError".data

/-- `Schema.render_description` (objects.py:446-461): the whole
render — context building included — runs inside `try`, and any exception is
caught and replaced by its stringified text; the result is split on
newlines. -/
def Schema.render_description (eng : Engine) (s : Schema) (obj : Object) : List Str :=
  let description :=
    match s.context_of obj with
    | .error e => pyErrStr e
    | .ok ctx =>
      match eng s.description_template ctx with
      | .ok d => d
      | .error e => e
  pySplitAll '\n' description

/-- `Schema.render_reference` (objects.py:463-479): same catch-and-stringify
policy. -/
def Schema.render_reference (eng : Engine) (s : Schema) (obj : Object) : Str :=
  match s.context_of obj with
  | .error e => pyErrStr e
  | .ok ctx =>
    match eng s.reference_template ctx with
    | .ok r => r
    | .error e => e

/-- `Schema._render_reference_without_object` (objects.py:481-493): builds
the `{type, title}` context and renders — with no `try`/`except`, so an
engine failure propagates to the caller. -/
def Schema.render_reference_without_object (eng : Engine) (s : Schema)
    (explicit_title : Str) (reference_template : Str) : Except Str Str :=
  let ctx := dinsert s.context_without_object TITLE_KEY (CtxVal.s explicit_title)
  eng reference_template ctx

/-- `Schema.render_missing_reference` (objects.py:495-499). -/
def Schema.render_missing_reference (eng : Engine) (s : Schema)
    (explicit_title : Str) : Except Str Str :=
  s.render_reference_without_object eng explicit_title s.missing_reference_template

/-- `Schema.render_ambiguous_reference` (objects.py:501-505). -/
def Schema.render_ambiguous_reference (eng : Engine) (s : Schema)
    (explicit_title : Str) : Except Str Str :=
  s.render_reference_without_object eng explicit_title s.ambiguous_reference_template

/-- C8 (amended): a failing render is caught and its stringified error
returned as the rendered text for the description and reference renderers;
the without-object variants (missing-reference and ambiguous-reference) have
no such boundary and propagate the engine's failure to the caller. -/
theorem any_C8 (eng : Engine) (s : Schema) (obj : Object) (title : Str)
    (e : Str) (ctx : Context) :
    (s.context_of obj = .ok ctx → eng s.description_template ctx = .error e →
      Schema.render_description eng s obj = pySplitAll '\n' e) ∧
    (s.context_of obj = .ok ctx → eng s.reference_template ctx = .error e →
      Schema.render_reference eng s obj = e) ∧
    (eng s.missing_reference_template
        (dinsert s.context_without_object TITLE_KEY (CtxVal.s title)) = .error e →
      Schema.render_missing_reference eng s title = .error e) ∧
    (eng s.ambiguous_reference_template
        (dinsert s.context_without_object TITLE_KEY (CtxVal.s title)) = .error e →
      Schema.render_ambiguous_reference eng s title = .error e) := by
  refine ⟨?_, ?_, ?_, ?_⟩
  · intro hctx heng
    unfold Schema.render_description
    rw [hctx]
    show pySplitAll '\n'
        (match eng s.description_template ctx with
          | .ok d => d
          | .error e => e) = _
    rw [heng]
  · intro hctx heng
    unfold Schema.render_reference
    rw [hctx]
    show (match eng s.reference_template ctx with
          | .ok r => r
          | .error e => e) = _
    rw [heng]
  · intro heng
    unfold Schema.render_missing_reference Schema.render_reference_without_object
    exact heng
  · intro heng
    unfold Schema.render_ambiguous_reference Schema.render_reference_without_object
    exact heng

/-- An engine that always fails, standing for a template that raises
`RenderError` at render time. -/
def failEngine : Engine := fun _ _ => .error "RenderError: boom".data

/-- A schema with all defaults. -/
def c8schema : Schema := { objtype := "cat".data }

/-- C8 counterexample: with a failing template engine, the missing-reference
and ambiguous-reference renderers return the raised error (it propagates to
the caller), refuting the claim that every rendering operation catches
`RenderError`; the description renderer, by contrast, returns the
stringified error text. -/
theorem any_C8_counterexample :
    Schema.render_missing_reference failEngine c8schema "x".data
      = .error "RenderError: boom".data ∧
    Schema.render_ambiguous_reference failEngine c8schema "x".data
      = .error "RenderError: boom".data ∧
    Schema.render_description failEngine c8schema
        ⟨"cat".data, Option.none, [], Option.none⟩
      = ["RenderError: boom".data] := by
  decide

/-- C8 witness: the amended theorem applied to the failing engine shows the
description render swallows the error into its output text. -/
theorem any_C8_witness :
    Schema.render_description failEngine c8schema
        ⟨"cat".data, Option.none, [], Option.none⟩
      = pySplitAll '\n' "RenderError: boom".data :=
  (any_C8 failEngine c8schema ⟨"cat".data, Option.none, [], Option.none⟩
      "x".data "RenderError: boom".data
      [(TYPE_KEY, CtxVal.s "cat".data), (UNDERSCORE_KEY, CtxVal.selfmap)]).1
    (by decide) rfl

-- ======================================================================
-- domain.py: ObjIndex.generate
-- ======================================================================

/-- Lexicographic `≤` on strings (Python string comparison). -/
def strLe : Str → Str → Bool
  | [], _ => true
  | _ :: _, [] => false
  | a :: as, b :: bs => if a = b then strLe as bs else decide (a < b)

/-- Comparison of optional strings.  Python raises `TypeError` comparing
`None` with `str`; inside `generate` every sorted collection is
shape-homogeneous so mixed comparisons never happen, and the model totalizes
with `None` first. -/
def optStrLe : Option Str → Option Str → Bool
  | Option.none, _ => true
  | some _, Option.none => false
  | some a, some b => strLe a b

/-- Order by `Category._sort_key` (objects.py:145-147): the lexicographic
`(main, sub, extra)` tuple order. -/
def catLe (a b : Category) : Bool :=
  if a.main = b.main then
    if a.sub = b.sub then optStrLe a.extra b.extra else optStrLe a.sub b.sub
  else strLe a.main b.main

/-- Order of `sorted(self.domain.references.items())` (domain.py:711):
dict items compare by key first, and keys are unique. -/
def refKeyLe (a b : RefKey) : Bool :=
  if a.1 = b.1 then
    if a.2.1 = b.2.1 then strLe a.2.2 b.2.2 else strLe a.2.1 b.2.1
  else strLe a.1 b.1

/-- Stable insertion used by `sortLe`. -/
def insertLe {α : Type} (le : α → α → Bool) (x : α) : List α → List α
  | [] => [x]
  | y :: ys => if le x y then x :: y :: ys else y :: insertLe le x ys

/-- Python's stable `sorted`, modelled as insertion sort: both are stable,
and a stable sort of a total preorder produces a unique result. -/
def sortLe {α : Type} (le : α → α → Bool) : List α → List α
  | [] => []
  | x :: xs => insertLe le x (sortLe le xs)

/-- `Indexer.sort` with `key=lambda x: key(x)._sort_key`
(objects.py:162-163), the default sort every `_sort_by_category` call of
`ObjIndex.generate` uses (domain.py:793-795) — `LiteralIndexer` does not
override it. -/
def sortByCategory {α : Type} (key : α → Category) (l : List α) : List α :=
  sortLe (fun x y => catLe (key x) (key y)) l

theorem perm_insertLe {α : Type} (le : α → α → Bool) (x : α) (l : List α) :
    (insertLe le x l).Perm (x :: l) := by
  induction l with
  | nil => exact List.Perm.refl _
  | cons y ys ih =>
    unfold insertLe
    by_cases h : le x y = true
    · rw [if_pos h]
    · rw [if_neg h]
      exact (ih.cons y).trans (List.Perm.swap x y ys)

theorem perm_sortLe {α : Type} (le : α → α → Bool) (l : List α) :
    (sortLe le l).Perm l := by
  induction l with
  | nil => exact List.Perm.refl _
  | cons x xs ih => exact (perm_insertLe le x (sortLe le xs)).trans (ih.cons x)

/-- `sphinx.domains.IndexEntry` as produced by `_generate_index_entry`
(domain.py:759-789), plus a ghost `objid` recording which identifier the
entry was generated from (`none` for the parent entries of sub-categories);
the ghost field is not part of the sphinx tuple and exists only so that
occurrence counting is well defined. -/
structure IndexEntry where
  name : Str
  subtype : Nat
  docname : Str
  anchor : Str
  extra : Str
  qualifier : Str
  descr : Str
  objid : Option Str
deriving DecidableEq, Repr

/-- Truthiness of the `docnames` argument (`if ignore_docnames and ...`,
domain.py:766): `None` and the empty collection are falsy. -/
def pyTruthyDoc (o : Option (List Str)) : Bool :=
  match o with
  | Option.none => false
  | some l => l ≠ []

/-- `get_object_title` (obj.py:270-271) on the opaque payload: the raw
optional name. -/
def get_object_title (obj : Object) : Option Str := obj.name

/-- The description processing of `_generate_index_entry`
(domain.py:771-774): join the content, strip markup (`strip_rst_markups`, an
external text utility passed in as a function), drop blank lines, and
shorten to 50 characters plus an ellipsis. -/
def descOf (stripMarkups : Str → Str) (content : Option Str) : Str :=
  let desc := match content with
    | some c => c
    | Option.none => []
  let desc := stripMarkups desc
  let desc := ((pySplitAll '\n' desc).filter (fun ln => decide (pyStrip ln ≠ []))).flatten
  if 50 < desc.length then desc.take 50 ++ ['…'] else desc

/-- `_generate_index_entry` (domain.py:759-783): look the identifier up in
the objects dict (a missing entry raises `KeyError` in the source; the
registry invariant rules it out and the model skips the entry), honour the
document filter, and build the entry with the title-or-identifier display
name.  The ghost `objid` records the generating identifier. -/
def genEntry (reg : Registry) (objtype : Str) (stripMarkups : Str → Str)
    (objid : Str) (docnames : Option (List Str)) (category : Category) :
    Option IndexEntry :=
  match dlookup reg.objects (objtype, objid) with
  | Option.none => Option.none
  | some e =>
    if pyTruthyDoc docnames = true ∧ e.docname ∉ docnames.getD [] then Option.none
    else
      let name := match get_object_title e.obj with
        | some n => if n ≠ [] then n else objid
        | Option.none => objid
      some ⟨name, category.index_entry_subtype, e.docname, e.anchor,
        category.extra.getD [], [], descOf stripMarkups e.obj.content, some objid⟩

/-- `_generate_subcategory_index_entry` (domain.py:785-789). -/
def genSubEntry (category : Category) : IndexEntry :=
  ⟨category.sub.getD [], category.index_entry_subtype, [], [], [], [], [], Option.none⟩

/-- The `singleidx` accumulator (domain.py:706): main category → category →
identifier set. -/
abbrev SingleIdx := List (Category × List (Category × List Str))

/-- The `dualidx` accumulator (domain.py:709): main → sub → category →
identifier set. -/
abbrev DualIdx := List (Category × List (Category × List (Category × List Str)))

/-- Python `d.setdefault(k, dflt)` followed by an in-place update of the
value: replace the (unique) entry when present, append `(k, f dflt)`
otherwise. -/
def dmodify {κ ν : Type} [DecidableEq κ] (l : List (κ × ν)) (k : κ) (dflt : ν)
    (f : ν → ν) : List (κ × ν) :=
  match l with
  | [] => [(k, f dflt)]
  | (k', v') :: rest =>
    if k = k' then (k, f v') :: rest else (k', v') :: dmodify rest k dflt f

/-- `singleidx.setdefault(main, {}).setdefault(category, set()).update(objids)`
(domain.py:722-724). -/
def siInsert (si : SingleIdx) (main cat : Category) (objids : List Str) : SingleIdx :=
  dmodify si main [] (fun inner => dmodify inner cat [] (fun s => sunion s objids))

/-- `dualidx.setdefault(main, {}).setdefault(sub, {}).setdefault(category,
set()).update(objids)` (domain.py:726-728). -/
def diInsert (di : DualIdx) (main sub cat : Category) (objids : List Str) : DualIdx :=
  dmodify di main [] (fun d2 =>
    dmodify d2 sub [] (fun d3 => dmodify d3 cat [] (fun s => sunion s objids)))

/-- The body of the classification loop of `generate` (domain.py:712-728):
skip non-matching types, skip non-matching fields when the reference type
names a (truthy) field, and fan every category of `classify` into the
single or dual accumulator.  The stored reference value is a plain string
handed to the indexer's `classify`. -/
def classifyStep (rt : RefType) (classify : Value → List Category)
    (idx : SingleIdx × DualIdx) (p : RefKey × List Str) : SingleIdx × DualIdx :=
  if p.1.1 ≠ rt.objtype then idx
  else if pyTruthy rt.field = true ∧ p.1.2.1 ≠ rt.field.getD [] then idx
  else
    (classify (Value.str p.1.2.2)).foldl (fun acc category =>
      match category.as_sub with
      | Option.none => (siInsert acc.1 category.as_main category p.2, acc.2)
      | some sub => (acc.1, diInsert acc.2 category.as_main sub category p.2)) idx

/-- The single-bucket emission run of `generate` (domain.py:731-738): one
entry per identifier, over the sorted inner categories of one main
category. -/
def singleEntriesOf (reg : Registry) (objtype : Str) (stripMarkups : Str → Str)
    (docnames : Option (List Str)) (inner : List (Category × List Str)) :
    List IndexEntry :=
  (sortByCategory Prod.fst inner).foldl (fun es catIds =>
    es ++ catIds.2.filterMap (fun objid =>
      genEntry reg objtype stripMarkups objid docnames catIds.1)) []

/-- The dual-bucket emission run of `generate` (domain.py:740-749): per
sorted sub-category a parent entry followed by one entry per identifier. -/
def dualEntriesOf (reg : Registry) (objtype : Str) (stripMarkups : Str → Str)
    (docnames : Option (List Str))
    (entries : List (Category × List (Category × List Str))) : List IndexEntry :=
  (sortByCategory Prod.fst entries).foldl (fun es subEntry =>
    (sortByCategory Prod.fst subEntry.2).foldl (fun es catIds =>
      es ++ catIds.2.filterMap (fun objid =>
        genEntry reg objtype stripMarkups objid docnames catIds.1))
      (es ++ [genSubEntry subEntry.1])) []

/-- The first half of `generate` (domain.py:711-728): the reference items
sorted by key (`sorted(self.domain.references.items())` — keys are unique,
so dict items compare by key) and folded through the classification loop
into the `(singleidx, dualidx)` pair. -/
def builtOf (reg : Registry) (rt : RefType) (classify : Value → List Category) :
    SingleIdx × DualIdx :=
  (sortLe (fun a b => refKeyLe a.1 b.1) reg.references).foldl
    (classifyStep rt classify) ([], [])

/-- The single-index emission loop of `generate` (domain.py:730-738):
`content.setdefault(main, [])` extended with the run of single entries of
each sorted main category. -/
def contentSingle (reg : Registry) (rt : RefType) (classify : Value → List Category)
    (stripMarkups : Str → Str) (docnames : Option (List Str)) :
    List (Category × List IndexEntry) :=
  (sortByCategory Prod.fst (builtOf reg rt classify).1).foldl (fun content mainEntry =>
    dmodify content mainEntry.1 [] (fun l =>
      l ++ singleEntriesOf reg rt.objtype stripMarkups docnames mainEntry.2)) []

/-- The dual-index emission loop of `generate` (domain.py:740-749), appended
into the groups already holding the single entries. -/
def contentAll (reg : Registry) (rt : RefType) (classify : Value → List Category)
    (stripMarkups : Str → Str) (docnames : Option (List Str)) :
    List (Category × List IndexEntry) :=
  (sortByCategory Prod.fst (builtOf reg rt classify).2).foldl (fun content mainEntry =>
    dmodify content mainEntry.1 [] (fun l =>
      l ++ dualEntriesOf reg rt.objtype stripMarkups docnames mainEntry.2))
    (contentSingle reg rt classify stripMarkups docnames)

/-- `ObjIndex.generate` (domain.py:700-757): sort the reference items by
key, classify them into the single/dual accumulators, emit the sorted
entries grouped under their main categories (singles first, then the dual
parent/child runs appended into the same groups), and return the groups
sorted by category with the category mapped to its main string.  (The
returned `collapse` flag is the constant `False` and is omitted.) -/
def generate (reg : Registry) (rt : RefType) (classify : Value → List Category)
    (stripMarkups : Str → Str) (docnames : Option (List Str)) :
    List (Str × List IndexEntry) :=
  (sortByCategory Prod.fst (contentAll reg rt classify stripMarkups docnames)).map
    (fun g => (g.1.main, g.2))

/-- Occurrences of the identifier `i` among the entries of a `generate`
output (counted through the ghost `objid`). -/
def entriesCountL (es : List IndexEntry) (i : Str) : Nat :=
  es.countP (fun en => decide (en.objid = some i))

/-- Occurrences of the identifier `i` across all groups of a `generate`
output. -/
def entryCount (out : List (Str × List IndexEntry)) (i : Str) : Nat :=
  (out.map (fun g => entriesCountL g.2 i)).sum

/-- Occurrences of `i` in the single accumulator, one per bucket containing
it. -/
def siCount (si : SingleIdx) (i : Str) : Nat :=
  (si.map (fun g => (g.2.map (fun c => if i ∈ c.2 then 1 else 0)).sum)).sum

-- C9 supporting lemmas ---------------------------------------------------

theorem dmodify_fresh {κ ν : Type} [DecidableEq κ] {l : List (κ × ν)} {k : κ}
    (dflt : ν) (f : ν → ν) (h : k ∉ l.map Prod.fst) :
    dmodify l k dflt f = l ++ [(k, f dflt)] := by
  induction l with
  | nil => rfl
  | cons p rest ih =>
    obtain ⟨k', v'⟩ := p
    simp only [List.map_cons, List.mem_cons, not_or] at h
    unfold dmodify
    rw [if_neg h.1, ih h.2]
    rfl

theorem siInsert_fresh {si : SingleIdx} {m : Category} {ids : List Str}
    (h : m ∉ si.map Prod.fst) :
    siInsert si m m ids = si ++ [(m, [(m, sunion [] ids)])] := by
  unfold siInsert
  rw [dmodify_fresh _ _ h]
  rfl

theorem siCount_siInsert_fresh {si : SingleIdx} {m : Category} {ids : List Str}
    {i : Str} (h : m ∉ si.map Prod.fst) :
    siCount (siInsert si m m ids) i = siCount si i + (if i ∈ ids then 1 else 0) := by
  rw [siInsert_fresh h]
  unfold siCount
  rw [List.map_append, List.sum_append]
  simp [mem_sunion]

theorem siInsert_fresh_keys {si : SingleIdx} {m : Category} {ids : List Str}
    (h : m ∉ si.map Prod.fst) :
    (siInsert si m m ids).map Prod.fst = si.map Prod.fst ++ [m] := by
  rw [siInsert_fresh h]
  simp

/-- A reference item matches the `(objtype, field)` pair of the generated
index. -/
def MatchTF (t f : Str) (p : RefKey × List Str) : Prop :=
  p.1.1 = t ∧ p.1.2.1 = f

instance (t f : Str) (p : RefKey × List Str) : Decidable (MatchTF t f p) := by
  unfold MatchTF
  infer_instance

theorem classifyStep_literal (t f : Str) (hf : f ≠ []) (idx : SingleIdx × DualIdx)
    (p : RefKey × List Str) :
    classifyStep ⟨t, some f, Option.none⟩ literal_classify idx p
      = if MatchTF t f p then
          (siInsert idx.1 ⟨p.1.2.2, Option.none, Option.none⟩
            ⟨p.1.2.2, Option.none, Option.none⟩ p.2, idx.2)
        else idx := by
  unfold classifyStep MatchTF
  by_cases h1 : p.1.1 = t
  · rw [if_neg (not_not_intro h1)]
    by_cases h2 : p.1.2.1 = f
    · rw [if_neg (fun hc => hc.2 h2), if_pos ⟨h1, h2⟩]
      simp [literal_classify, Value.as_list, Category.as_sub, Category.as_main]
    · rw [if_pos ⟨decide_eq_true hf, h2⟩, if_neg (fun hc => h2 hc.2)]
  · rw [if_pos h1, if_neg (fun hc => h1 hc.1)]

theorem build_literal (t f i : Str) (hf : f ≠ []) :
    ∀ (l : List (RefKey × List Str)) (si : SingleIdx) (di : DualIdx),
    (∀ p ∈ l, MatchTF t f p →
      (Category.mk p.1.2.2 Option.none Option.none) ∉ si.map Prod.fst) →
    ((l.filter (fun p => decide (MatchTF t f p))).map (fun p => p.1.2.2)).Nodup →
    (∀ g ∈ si, ∀ c ∈ g.2, c.2.Nodup) →
    siCount ((l.foldl (classifyStep ⟨t, some f, Option.none⟩ literal_classify) (si, di)).1) i
        = siCount si i
          + (l.filter (fun p => decide (MatchTF t f p ∧ i ∈ p.2))).length
      ∧ (l.foldl (classifyStep ⟨t, some f, Option.none⟩ literal_classify) (si, di)).2 = di
      ∧ (∀ g ∈ (l.foldl (classifyStep ⟨t, some f, Option.none⟩ literal_classify) (si, di)).1,
          ∀ c ∈ g.2, c.2.Nodup) := by
  intro l
  induction l with
  | nil =>
    intro si di _ _ hnd
    exact ⟨by simp, rfl, hnd⟩
  | cons p rest ih =>
    intro si di hfresh hvals hnd
    rw [List.foldl_cons, classifyStep_literal t f hf]
    by_cases hm : MatchTF t f p
    · rw [if_pos hm]
      have hfm : Category.mk p.1.2.2 Option.none Option.none ∉ si.map Prod.fst :=
        hfresh p (List.mem_cons_self _ _) hm
      have hvals' : ((rest.filter (fun q => decide (MatchTF t f q))).map
          (fun q => q.1.2.2)).Nodup := by
        rw [List.filter_cons, if_pos (by simpa using hm)] at hvals
        exact (List.nodup_cons.mp hvals).2
      have hheadval : p.1.2.2 ∉ (rest.filter (fun q => decide (MatchTF t f q))).map
          (fun q => q.1.2.2) := by
        rw [List.filter_cons, if_pos (by simpa using hm)] at hvals
        exact (List.nodup_cons.mp hvals).1
      have ihr := ih (siInsert si ⟨p.1.2.2, Option.none, Option.none⟩
          ⟨p.1.2.2, Option.none, Option.none⟩ p.2) di
        (by
          intro q hq hmq
          rw [siInsert_fresh_keys hfm]
          intro hmem
          rcases List.mem_append.mp hmem with hmem | hmem
          · exact hfresh q (List.mem_cons_of_mem _ hq) hmq hmem
          · have heq : q.1.2.2 = p.1.2.2 := by
              have := List.mem_singleton.mp hmem
              exact (Category.mk.injEq .. ▸ this).1
            apply hheadval
            rw [← heq]
            exact List.mem_map.mpr ⟨q, List.mem_filter.mpr ⟨hq, by simpa using hmq⟩, rfl⟩)
        hvals'
        (by
          rw [siInsert_fresh hfm]
          intro g hg c hc
          rcases List.mem_append.mp hg with hg | hg
          · exact hnd g hg c hc
          · have := List.mem_singleton.mp hg
            subst this
            have := List.mem_singleton.mp hc
            subst this
            exact nodup_sunion List.nodup_nil)
      refine ⟨?_, ihr.2.1, ihr.2.2⟩
      rw [ihr.1, siCount_siInsert_fresh hfm, List.filter_cons]
      by_cases hi : i ∈ p.2
      · rw [if_pos (decide_eq_true (show MatchTF t f p ∧ i ∈ p.2 from ⟨hm, hi⟩)),
          if_pos hi]
        simp only [List.length_cons]
        omega
      · rw [if_neg (show ¬ (decide (MatchTF t f p ∧ i ∈ p.2) = true) from
            fun hc => hi (of_decide_eq_true hc).2), if_neg hi]
        omega
    · rw [if_neg hm]
      have hvals' : ((rest.filter (fun q => decide (MatchTF t f q))).map
          (fun q => q.1.2.2)).Nodup := by
        rw [List.filter_cons, if_neg (by simpa using hm)] at hvals
        exact hvals
      have ihr := ih si di (fun q hq => hfresh q (List.mem_cons_of_mem _ hq)) hvals' hnd
      rw [List.filter_cons, if_neg (by simp [hm])]
      exact ihr

-- C9 emission counting ----------------------------------------------------

/-- Occurrences of `i` across the groups of a content dict. -/
def contentCount (content : List (Category × List IndexEntry)) (i : Str) : Nat :=
  (content.map (fun g => entriesCountL g.2 i)).sum

theorem entriesCountL_nil (i : Str) : entriesCountL [] i = 0 := rfl

theorem entriesCountL_append (a b : List IndexEntry) (i : Str) :
    entriesCountL (a ++ b) i = entriesCountL a i + entriesCountL b i := by
  unfold entriesCountL
  rw [List.countP_append]

theorem countP_genEntry_bucket (reg : Registry) (t : Str) (stripM : Str → Str)
    (cat : Category) (i : Str) :
    ∀ ids : List Str, ids.Nodup →
      entriesCountL (ids.filterMap (fun objid =>
          genEntry reg t stripM objid Option.none cat)) i
        = if i ∈ ids ∧ (dlookup reg.objects (t, i)).isSome = true then 1 else 0 := by
  intro ids
  induction ids with
  | nil =>
    intro _
    simp [entriesCountL]
  | cons j rest ih =>
    intro hnd
    rw [List.nodup_cons] at hnd
    cases hl : dlookup reg.objects (t, j) with
    | none =>
      have hcons : (j :: rest).filterMap (fun objid =>
            genEntry reg t stripM objid Option.none cat)
          = rest.filterMap (fun objid => genEntry reg t stripM objid Option.none cat) :=
        List.filterMap_cons_none (by
          show genEntry reg t stripM j Option.none cat = Option.none
          unfold genEntry
          rw [hl])
      rw [hcons, ih hnd.2]
      by_cases hij : i = j
      · subst hij
        simp [hnd.1, hl]
      · simp [List.mem_cons, hij]
    | some e =>
      have hcons : (j :: rest).filterMap (fun objid =>
            genEntry reg t stripM objid Option.none cat)
          = (⟨(match get_object_title e.obj with
              | some n => if n ≠ [] then n else j
              | Option.none => j), cat.index_entry_subtype, e.docname, e.anchor,
              cat.extra.getD [], [], descOf stripM e.obj.content, some j⟩ : IndexEntry)
            :: rest.filterMap (fun objid => genEntry reg t stripM objid Option.none cat) :=
        List.filterMap_cons_some (by
          show genEntry reg t stripM j Option.none cat = _
          unfold genEntry
          rw [hl]
          exact if_neg (by simp [pyTruthyDoc]))
      rw [hcons]
      unfold entriesCountL
      rw [List.countP_cons]
      by_cases hij : i = j
      · subst hij
        have hrest : entriesCountL (rest.filterMap (fun objid =>
            genEntry reg t stripM objid Option.none cat)) i = 0 := by
          rw [ih hnd.2]
          simp [hnd.1]
        unfold entriesCountL at hrest
        rw [hrest]
        simp [hl]
      · have hpred : (decide ((some j : Option Str) = some i)) = false := by
          simp [Ne.symm hij]
        rw [hpred]
        have := ih hnd.2
        unfold entriesCountL at this
        rw [this]
        simp [List.mem_cons, hij]

theorem entriesCountL_foldl_append {α : Type} (g : α → List IndexEntry) (i : Str) :
    ∀ (l : List α) (acc : List IndexEntry),
    entriesCountL (l.foldl (fun es x => es ++ g x) acc) i
      = entriesCountL acc i + (l.map (fun x => entriesCountL (g x) i)).sum := by
  intro l
  induction l with
  | nil =>
    intro acc
    simp
  | cons x xs ih =>
    intro acc
    rw [List.foldl_cons, ih, entriesCountL_append]
    rw [List.map_cons, List.sum_cons]
    omega

theorem entriesCountL_singleEntriesOf (reg : Registry) (t : Str)
    (stripM : Str → Str) (inner : List (Category × List Str)) (i : Str)
    (hnd : ∀ c ∈ inner, c.2.Nodup) :
    entriesCountL (singleEntriesOf reg t stripM Option.none inner) i
      = if (dlookup reg.objects (t, i)).isSome = true
        then (inner.map (fun c => if i ∈ c.2 then 1 else 0)).sum
        else 0 := by
  unfold singleEntriesOf
  rw [entriesCountL_foldl_append, entriesCountL_nil]
  have hp : (sortByCategory Prod.fst inner).Perm inner := perm_sortLe _ _
  rw [(hp.map _).sum_eq]
  rw [List.map_congr_left (fun c hc =>
    countP_genEntry_bucket reg t stripM c.1 i c.2 (hnd c hc))]
  by_cases hs : (dlookup reg.objects (t, i)).isSome = true
  · rw [if_pos hs]
    have hpt : ∀ c ∈ inner,
        (if i ∈ c.2 ∧ (dlookup reg.objects (t, i)).isSome = true then 1 else 0)
          = (if i ∈ c.2 then 1 else 0) := by
      intro c _
      by_cases hm : i ∈ c.2
      · rw [if_pos ⟨hm, hs⟩, if_pos hm]
      · rw [if_neg (fun hc => hm hc.1), if_neg hm]
    rw [List.map_congr_left hpt]
    omega
  · rw [if_neg hs]
    have hpt : ∀ c ∈ inner,
        (if i ∈ c.2 ∧ (dlookup reg.objects (t, i)).isSome = true then 1 else 0) = 0 := by
      intro c _
      rw [if_neg (fun hc => hs hc.2)]
    rw [List.map_congr_left hpt]
    simp

theorem contentCount_dmodify_append (content : List (Category × List IndexEntry))
    (m : Category) (es : List IndexEntry) (i : Str) :
    contentCount (dmodify content m [] (fun l => l ++ es)) i
      = contentCount content i + entriesCountL es i := by
  induction content with
  | nil =>
    simp [contentCount, dmodify, entriesCountL]
  | cons g rest ih =>
    obtain ⟨k', v'⟩ := g
    unfold dmodify
    by_cases hk : m = k'
    · rw [if_pos hk]
      simp only [contentCount, List.map_cons, List.sum_cons]
      rw [entriesCountL_append]
      omega
    · rw [if_neg hk]
      simp only [contentCount, List.map_cons, List.sum_cons]
      simp only [contentCount] at ih
      omega

theorem contentCount_foldl {α : Type} (mainOf : α → Category)
    (E : α → List IndexEntry) (i : Str) :
    ∀ (l : List α) (c0 : List (Category × List IndexEntry)),
    contentCount (l.foldl (fun content g =>
        dmodify content (mainOf g) [] (fun l0 => l0 ++ E g)) c0) i
      = contentCount c0 i + (l.map (fun g => entriesCountL (E g) i)).sum := by
  intro l
  induction l with
  | nil =>
    intro c0
    simp
  | cons x xs ih =>
    intro c0
    rw [List.foldl_cons, ih, contentCount_dmodify_append]
    rw [List.map_cons, List.sum_cons]
    omega

-- C9 main results ---------------------------------------------------------

/-- C9 (amended): with the Literal indexer, a field filter and no document
filter, the number of IndexEntries generated from an identifier equals the
number of distinct reference values `v` whose bucket `(type, field, v)`
contains it.  Hence every identifier present in some matching bucket appears
in at least one IndexEntry, it appears in exactly one when it occurs under a
single value, and an identifier referenced under several distinct values
appears once per value (refuting global uniqueness). -/
theorem any_C9 (reg : Registry) (t f : Str) (stripM : Str → Str) (i : Str)
    (hf : f ≠ [])
    (href : (reg.references.map Prod.fst).Nodup)
    (hwf : ∀ p ∈ reg.references, p.1.1 = t →
      ∀ j ∈ p.2, (dlookup reg.objects (t, j)).isSome = true) :
    entryCount (generate reg ⟨t, some f, Option.none⟩ literal_classify stripM
        Option.none) i
      = (reg.references.filter (fun p => decide (MatchTF t f p ∧ i ∈ p.2))).length := by
  have hperm : (sortLe (fun a b : RefKey × List Str => refKeyLe a.1 b.1)
      reg.references).Perm reg.references := perm_sortLe _ _
  have hkeysnd : ((reg.references.filter (fun p =>
      decide (MatchTF t f p))).map Prod.fst).Nodup :=
    href.sublist ((List.filter_sublist _).map Prod.fst)
  have hvals : ((reg.references.filter (fun p => decide (MatchTF t f p))).map
      (fun p => p.1.2.2)).Nodup := by
    have hmm : (reg.references.filter (fun p => decide (MatchTF t f p))).map
        (fun p => p.1.2.2)
        = ((reg.references.filter (fun p => decide (MatchTF t f p))).map
            Prod.fst).map (fun k => k.2.2) := by
      rw [List.map_map]
      rfl
    rw [hmm]
    refine hkeysnd.map_on ?_
    intro x hx y hy hxy
    rcases List.mem_map.mp hx with ⟨p, hp, hpx⟩
    rcases List.mem_map.mp hy with ⟨q, hq, hqy⟩
    have hpM : MatchTF t f p := of_decide_eq_true (List.mem_filter.mp hp).2
    have hqM : MatchTF t f q := of_decide_eq_true (List.mem_filter.mp hq).2
    subst hpx
    subst hqy
    have hx1 : p.1 = (t, f, p.1.2.2) := by
      obtain ⟨⟨a, b, c⟩, v⟩ := p
      obtain ⟨h1, h2⟩ := hpM
      simp only at h1 h2
      simp [h1, h2]
    have hy1 : q.1 = (t, f, q.1.2.2) := by
      obtain ⟨⟨a, b, c⟩, v⟩ := q
      obtain ⟨h1, h2⟩ := hqM
      simp only at h1 h2
      simp [h1, h2]
    rw [hx1, hy1, hxy]
  have hvalsS : (((sortLe (fun a b : RefKey × List Str => refKeyLe a.1 b.1)
      reg.references).filter (fun p => decide (MatchTF t f p))).map
      (fun p => p.1.2.2)).Nodup := by
    have hpf := hperm.filter (fun p => decide (MatchTF t f p))
    exact ((hpf.map _).nodup_iff).mpr hvals
  obtain ⟨hcount, hdi, hsnd⟩ := build_literal t f i hf
    (sortLe (fun a b : RefKey × List Str => refKeyLe a.1 b.1) reg.references) [] []
    (fun p _ _ h => absurd h (List.not_mem_nil _)) hvalsS
    (fun g hg => absurd hg (List.not_mem_nil g))
  have hca : contentAll reg ⟨t, some f, Option.none⟩ literal_classify stripM
        Option.none
      = contentSingle reg ⟨t, some f, Option.none⟩ literal_classify stripM
        Option.none := by
    unfold contentAll
    have hdi' : (builtOf reg ⟨t, some f, Option.none⟩ literal_classify).2 = [] := hdi
    rw [hdi']
    rfl
  have hec : entryCount (generate reg ⟨t, some f, Option.none⟩ literal_classify
        stripM Option.none) i
      = contentCount (contentAll reg ⟨t, some f, Option.none⟩ literal_classify
          stripM Option.none) i := by
    unfold generate entryCount contentCount
    rw [List.map_map]
    exact ((perm_sortLe _ _).map _).sum_eq
  have hcs : contentCount (contentSingle reg ⟨t, some f, Option.none⟩
        literal_classify stripM Option.none) i
      = if (dlookup reg.objects (t, i)).isSome = true
        then siCount (builtOf reg ⟨t, some f, Option.none⟩ literal_classify).1 i
        else 0 := by
    unfold contentSingle
    rw [contentCount_foldl]
    have hpg : (sortByCategory Prod.fst
          (builtOf reg ⟨t, some f, Option.none⟩ literal_classify).1).Perm
        (builtOf reg ⟨t, some f, Option.none⟩ literal_classify).1 := perm_sortLe _ _
    rw [(hpg.map _).sum_eq]
    have hsnd' : ∀ g ∈ (builtOf reg ⟨t, some f, Option.none⟩ literal_classify).1,
        ∀ c ∈ g.2, c.2.Nodup := hsnd
    have hptw : ∀ g ∈ (builtOf reg ⟨t, some f, Option.none⟩ literal_classify).1,
        entriesCountL (singleEntriesOf reg
          (RefType.mk t (some f) Option.none).objtype stripM Option.none g.2) i
          = if (dlookup reg.objects (t, i)).isSome = true
            then (g.2.map (fun c => if i ∈ c.2 then 1 else 0)).sum
            else 0 := by
      intro g hg
      exact entriesCountL_singleEntriesOf reg t stripM g.2 i (hsnd' g hg)
    rw [List.map_congr_left hptw]
    by_cases hs : (dlookup reg.objects (t, i)).isSome = true
    · rw [if_pos hs]
      have hpt2 : ∀ g ∈ (builtOf reg ⟨t, some f, Option.none⟩ literal_classify).1,
          (if (dlookup reg.objects (t, i)).isSome = true
            then (g.2.map (fun c => if i ∈ c.2 then 1 else 0)).sum else 0)
            = (g.2.map (fun c => if i ∈ c.2 then 1 else 0)).sum :=
        fun g _ => if_pos hs
      rw [List.map_congr_left hpt2]
      have h0 : contentCount ([] : List (Category × List IndexEntry)) i = 0 := rfl
      rw [h0]
      unfold siCount
      omega
    · rw [if_neg hs]
      have hpt2 : ∀ g ∈ (builtOf reg ⟨t, some f, Option.none⟩ literal_classify).1,
          (if (dlookup reg.objects (t, i)).isSome = true
            then (g.2.map (fun c => if i ∈ c.2 then 1 else 0)).sum else 0) = 0 :=
        fun g _ => if_neg hs
      rw [List.map_congr_left hpt2]
      have h0 : contentCount ([] : List (Category × List IndexEntry)) i = 0 := rfl
      rw [h0]
      simp
  rw [hec, hca, hcs]
  by_cases hs : (dlookup reg.objects (t, i)).isSome = true
  · rw [if_pos hs]
    have hc2 : siCount (builtOf reg ⟨t, some f, Option.none⟩ literal_classify).1 i
        = siCount ([] : SingleIdx) i
          + ((sortLe (fun a b : RefKey × List Str => refKeyLe a.1 b.1)
              reg.references).filter
              (fun p => decide (MatchTF t f p ∧ i ∈ p.2))).length := hcount
    rw [hc2, (hperm.filter _).length_eq]
    simp [siCount]
  · rw [if_neg hs]
    symm
    rw [List.length_eq_zero, List.filter_eq_nil_iff]
    intro p hp hc
    have hM := of_decide_eq_true hc
    exact hs (hwf p hp hM.1.1 i hM.2)

/-- A registry with one object `x` of type `t` referenced under two distinct
values of field `f`. -/
def c9reg : Registry :=
  ⟨[(("t".data, "x".data),
      ⟨"d".data, "a".data, ⟨"t".data, Option.none, [], Option.none⟩⟩)],
    [(("t".data, "f".data, "v1".data), ["x".data]),
     (("t".data, "f".data, "v2".data), ["x".data])]⟩

/-- C9 counterexample: the identifier `x` sits in the `(t, f, v1)` reference
bucket, yet `generate` with the Literal indexer and no document filter emits
two IndexEntries for it (one per distinct reference value), refuting "no
identifier appears in more than one IndexEntry". -/
theorem any_C9_counterexample :
    dlookup c9reg.references ("t".data, "f".data, "v1".data) = some ["x".data] ∧
    entryCount (generate c9reg ⟨"t".data, some "f".data, Option.none⟩
        literal_classify (fun s => s) Option.none) "x".data = 2 := by
  decide

/-- C9 witness: the counting theorem applied to the concrete registry. -/
theorem any_C9_witness :
    entryCount (generate c9reg ⟨"t".data, some "f".data, Option.none⟩
        literal_classify (fun s => s) Option.none) "x".data
      = (c9reg.references.filter (fun p =>
          decide (MatchTF "t".data "f".data p ∧ "x".data ∈ p.2))).length :=
  any_C9 c9reg "t".data "f".data (fun s => s) "x".data
    (by decide) (by decide) (by decide)

end AnyE
